import Mathlib

/-! rtc-demo: signalling relay and mesh client

A shallow embedding of `server.js` (the socket.io signalling relay) and of
`public/client.js` (the browser client that keeps one `RTCPeerConnection` per
remote peer), followed by theorems about room membership, message fan-out and
the client's per-peer connection bookkeeping.

The relay is written against socket.io.  The parts of socket.io that the
handlers call are modelled here after its documented behaviour:

* every socket, on connection, joins a room named by its own id
  (`server.js` skips that room in the `disconnecting` handler);
* `socket.join(room)` / `socket.leave(room)` add the socket to / remove it
  from the room; a room with no socket left no longer exists;
* `io.to(room).emit(...)` reaches every socket of the room;
* `socket.to(room).emit(...)` is a broadcast from `room` with the sender's id
  as the excepted room: it reaches every socket of `room` that is not in the
  room named by the sender's id;
* when a socket disconnects, the `disconnecting` event fires while
  `socket.rooms` is still populated, and the socket then leaves all rooms.
-/

namespace RtcDemo

/-! ## Identifiers and wire payloads -/

/-- Socket ids are strings handed out by socket.io. -/
abbrev SocketId := String

/-- Room names are strings; a socket id is also a room name. -/
abbrev Room := String

/-- A session description, identified by the serial number of the peer
connection that produced it (`createOffer` / `createAnswer`). -/
abbrev Sdp := Nat

/-- The `payload` of a `signal` message.  The relay never inspects it; the
client dispatches on `payload.type`. -/
inductive Payload where
  | offer (sdp : Sdp)
  | answer (sdp : Sdp)
  | ice (candidate : String)
  | unknown (type : String)
  deriving DecidableEq, Repr

/-- Events the relay emits to a socket. -/
inductive ServerMsg where
  | joinedRoom (you : SocketId) (peers : List SocketId)
  | peerJoined (id : SocketId) (userName : String)
  | signal (from_ : SocketId) (payload : Payload)
  | peerLeft (id : SocketId)
  deriving DecidableEq, Repr

/-- Events the relay receives: a new connection, the three client messages
`server.js` registers handlers for, and the loss of the transport. -/
inductive ClientEvent where
  | connection (id : SocketId)
  | joinRoom (id : SocketId) (room : Room) (userName : String)
  | signal (id : SocketId) (to_ from_ : SocketId) (payload : Payload)
  | leaveRoom (id : SocketId) (room : Room)
  | disconnect (id : SocketId)
  deriving DecidableEq, Repr

/-! ## The socket.io in-memory adapter -/

/-- JS `Set.prototype.add` on an insertion-ordered set of strings. -/
def setAdd (l : List String) (x : String) : List String :=
  if x ∈ l then l else l ++ [x]

/-- JS `Set.prototype.delete` on an insertion-ordered set of strings. -/
def setDelete (l : List String) (x : String) : List String :=
  l.filter (fun y => y ≠ x)

/-- The adapter keeps two maps: `rooms : Map<Room, Set<SocketId>>` and
`sids : Map<SocketId, Set<Room>>`.  Both are only ever read at a key, so each
is a function returning the set stored at the key, the empty list when the key
is absent (an emptied room is deleted from `rooms`). -/
structure Adapter where
  rooms : Room → List SocketId
  sids : SocketId → List Room

/-- The adapter of a relay nobody has connected to. -/
def Adapter.empty : Adapter := ⟨fun _ => [], fun _ => []⟩

/-- `adapter.addAll(id, {room})`, reached from `socket.join(room)`. -/
def Adapter.addAll (a : Adapter) (id : SocketId) (room : Room) : Adapter where
  rooms := fun r => if r = room then setAdd (a.rooms r) id else a.rooms r
  sids := fun s => if s = id then setAdd (a.sids s) room else a.sids s

/-- `adapter.del(id, room)`, reached from `socket.leave(room)`. -/
def Adapter.del (a : Adapter) (id : SocketId) (room : Room) : Adapter where
  rooms := fun r => if r = room then setDelete (a.rooms r) id else a.rooms r
  sids := fun s => if s = id then setDelete (a.sids s) room else a.sids s

/-- `adapter.delAll(id)`: the socket leaves every room recorded in
`sids.get(id)`, and its `sids` entry is dropped. -/
def Adapter.delAll (a : Adapter) (id : SocketId) : Adapter where
  rooms := fun r => if r ∈ a.sids id then setDelete (a.rooms r) id else a.rooms r
  sids := fun s => if s = id then [] else a.sids s

/-- `io.to(room).emit(m)`: one copy of `m` for every socket of `room`. -/
def ioTo (a : Adapter) (room : Room) (m : ServerMsg) : List (SocketId × ServerMsg) :=
  (a.rooms room).map (fun q => (q, m))

/-- `socket.to(room).emit(m)` for the socket `id`.  The broadcast operator of
a socket is built with `exceptRooms = {socket.id}`, and the adapter leaves out
every socket of an excepted room: one copy of `m` goes to every socket of
`room` that is not in the room named `id`. -/
def socketTo (a : Adapter) (id : SocketId) (room : Room) (m : ServerMsg) :
    List (SocketId × ServerMsg) :=
  ((a.rooms room).filter (fun q => q ∉ a.rooms id)).map (fun q => (q, m))

/-! ## `server.js` -/

/-- The relay: the connected sockets and the adapter. -/
structure Relay where
  sockets : List SocketId
  adapter : Adapter

/-- The relay at start-up. -/
def Relay.init : Relay := ⟨[], Adapter.empty⟩

/-- The `join-room` handler of socket `id`. -/
def onJoinRoom (s : Relay) (id : SocketId) (room : Room) (userName : String) :
    Relay × List (SocketId × ServerMsg) :=
  let adapter := s.adapter.addAll id room
  let clients := adapter.rooms room
  ({ s with adapter := adapter },
    (id, ServerMsg.joinedRoom id (clients.filter (fun q => q ≠ id)))
      :: socketTo adapter id room (ServerMsg.peerJoined id userName))

/-- The `signal` handler of socket `id`. -/
def onSignal (s : Relay) (_id : SocketId) (to_ from_ : SocketId) (payload : Payload) :
    Relay × List (SocketId × ServerMsg) :=
  (s, ioTo s.adapter to_ (ServerMsg.signal from_ payload))

/-- The `leave-room` handler of socket `id`. -/
def onLeaveRoom (s : Relay) (id : SocketId) (room : Room) :
    Relay × List (SocketId × ServerMsg) :=
  let adapter := s.adapter.del id room
  ({ s with adapter := adapter }, socketTo adapter id room (ServerMsg.peerLeft id))

/-- The `disconnecting` handler of socket `id`: the loop over `socket.rooms`. -/
def onDisconnecting (s : Relay) (id : SocketId) : List (SocketId × ServerMsg) :=
  ((s.adapter.sids id).filter (fun room => room ≠ id)).flatMap
    (fun room => socketTo s.adapter id room (ServerMsg.peerLeft id))

/-- One event at the relay.  Handlers exist only on connected sockets, so a
client message from a socket that is not connected has no effect; ids of live
sockets are unique, so a `connection` for a connected id does not occur. -/
def step (s : Relay) : ClientEvent → Relay × List (SocketId × ServerMsg)
  | .connection id =>
      if id ∈ s.sockets then (s, [])
      else ({ sockets := s.sockets ++ [id], adapter := s.adapter.addAll id id }, [])
  | .joinRoom id room userName =>
      if id ∈ s.sockets then onJoinRoom s id room userName else (s, [])
  | .signal id to_ from_ payload =>
      if id ∈ s.sockets then onSignal s id to_ from_ payload else (s, [])
  | .leaveRoom id room =>
      if id ∈ s.sockets then onLeaveRoom s id room else (s, [])
  | .disconnect id =>
      if id ∈ s.sockets then
        ({ sockets := s.sockets.filter (fun q => q ≠ id), adapter := s.adapter.delAll id },
          onDisconnecting s id)
      else (s, [])

/-- The relay after a sequence of events. -/
def run (s : Relay) : List ClientEvent → Relay
  | [] => s
  | e :: es => run (step s e).1 es

/-- Everything the relay emits during a sequence of events, in order. -/
def outputs (s : Relay) : List ClientEvent → List (SocketId × ServerMsg)
  | [] => []
  | e :: es => (step s e).2 ++ outputs (step s e).1 es

/-- An event the relay can receive in state `s`: a connection with a fresh
id, or a message / disconnection of a connected socket. -/
def accepts (s : Relay) : ClientEvent → Bool
  | .connection id => decide (id ∉ s.sockets)
  | .joinRoom id _ _ => decide (id ∈ s.sockets)
  | .signal id _ _ _ => decide (id ∈ s.sockets)
  | .leaveRoom id _ => decide (id ∈ s.sockets)
  | .disconnect id => decide (id ∈ s.sockets)

/-- A sequence of events the relay can receive from state `s`. -/
def wellFormedFrom (s : Relay) : List ClientEvent → Bool
  | [] => true
  | e :: es => accepts s e && wellFormedFrom (step s e).1 es

/-- A sequence of events the relay can receive after start-up. -/
def WellFormed (tr : List ClientEvent) : Prop := wellFormedFrom Relay.init tr = true

instance (tr : List ClientEvent) : Decidable (WellFormed tr) := by
  unfold WellFormed; infer_instance

/-! ## Membership as read off the event history -/

/-- The history reading of "`q` has joined `r` and its leave or disconnect has
not yet been processed", with `join-room` as the only way into a room. -/
def JoinedLive (tr : List ClientEvent) (q : SocketId) (r : Room) : Prop :=
  ∃ pre userName post, tr = pre ++ ClientEvent.joinRoom q r userName :: post ∧
    ClientEvent.leaveRoom q r ∉ post ∧ ClientEvent.disconnect q ∉ post

/-- An event by which `q` enters room `r`: a `join-room` of `q` into `r`, or
the connection of `q` when `r` is the room named by `q`'s own id. -/
def Enters (e : ClientEvent) (q : SocketId) (r : Room) : Prop :=
  (∃ userName, e = ClientEvent.joinRoom q r userName) ∨ (e = ClientEvent.connection q ∧ r = q)

/-- The history reading of membership that also counts the automatic join at
connection: `q` entered `r` and no later event is `q` leaving `r` or `q`
disconnecting. -/
def EnteredLive (tr : List ClientEvent) (q : SocketId) (r : Room) : Prop :=
  ∃ pre e post, tr = pre ++ e :: post ∧ Enters e q r ∧
    ClientEvent.leaveRoom q r ∉ post ∧ ClientEvent.disconnect q ∉ post

/-- The `peers` field of the `joined-room` reply found in a handler's output
for socket `p`, if there is one with `you = p`. -/
def replyPeers (p : SocketId) : List (SocketId × ServerMsg) → Option (List SocketId)
  | [] => none
  | (q, ServerMsg.joinedRoom you peers) :: rest =>
      if q = p ∧ you = p then some peers else replyPeers p rest
  | _ :: rest => replyPeers p rest

/-! ## Invariant of the adapter -/

/-- What holds of the relay after any sequence of events: the two adapter maps
agree, the stored sets have no repeated element, and only connected sockets
are room members. -/
structure Inv (s : Relay) : Prop where
  agree : ∀ r q, q ∈ s.adapter.rooms r ↔ r ∈ s.adapter.sids q
  roomsNodup : ∀ r, (s.adapter.rooms r).Nodup
  sidsNodup : ∀ q, (s.adapter.sids q).Nodup
  live : ∀ r q, q ∈ s.adapter.rooms r → q ∈ s.sockets
  socketsNodup : s.sockets.Nodup

/-! ## `public/client.js` -/

/-- Messages a client emits to the relay. `from` is the client's `myId`, which
is `null` until the first `joined-room`. -/
inductive ClientMsg where
  | joinRoom (room : Room) (userName : String)
  | signal (to_ : SocketId) (from_ : Option SocketId) (payload : Payload)
  | leaveRoom (room : Room)
  deriving DecidableEq, Repr

/-- The kind of a media track. -/
inductive TrackKind where
  | audio
  | video
  deriving DecidableEq, Repr

/-- A track of the local stream. -/
structure Track where
  kind : TrackKind
  enabled : Bool := true
  ended : Bool := false
  deriving DecidableEq, Repr

/-- The stream `getUserMedia({ audio: true, video: true })` resolves to. -/
def userMedia : List Track := [{ kind := TrackKind.audio }, { kind := TrackKind.video }]

/-- `RTCDataChannel.readyState`. -/
inductive ChannelState where
  | connecting
  | open_
  | closing
  | closed
  deriving DecidableEq, Repr

/-- A data channel: the peer connection it belongs to, its state, and the
texts handed to `send`. -/
structure DataChannel where
  pc : Nat
  readyState : ChannelState := ChannelState.connecting
  sent : List String := []
  deriving DecidableEq, Repr

/-- An `RTCPeerConnection`, as far as `client.js` drives it.  `serial` says
which `new RTCPeerConnection` call of this client produced it; `senders` are
the local tracks added to it (by position in the local stream); `candidates`
are the remote candidates `addIceCandidate` accepted, in order. -/
structure PeerConnection where
  serial : Nat
  senders : List Nat := []
  localDescription : Option Sdp := none
  remoteDescription : Option Sdp := none
  candidates : List String := []
  deriving DecidableEq, Repr

/-- Property read `obj[key]` on a JS object used as a map. -/
def objGet {α : Type} (m : List (String × α)) (key : String) : Option α :=
  m.lookup key

/-- Property write `obj[key] = v`: an existing key keeps its position, a new
key is appended. -/
def objSet {α : Type} (m : List (String × α)) (key : String) (v : α) : List (String × α) :=
  match m with
  | [] => [(key, v)]
  | (k, w) :: rest => if key = k then (k, v) :: rest else (k, w) :: objSet rest key v

/-- The statement `delete obj[key]`. -/
def objDelete {α : Type} (m : List (String × α)) (key : String) : List (String × α) :=
  m.filter (fun e => e.1 ≠ key)

/-- The module-level variables of `client.js`, plus `constructed`, the number
of `new RTCPeerConnection` calls made so far, and `closed`, the serials of the
connections `close()` has been called on. -/
structure Client where
  localStream : Option (List Track) := none
  pcs : List (SocketId × PeerConnection) := []
  dataChannels : List (SocketId × DataChannel) := []
  roomName : Option Room := none
  myId : Option SocketId := none
  audioEnabled : Bool := true
  videoEnabled : Bool := true
  constructed : Nat := 0
  closed : List Nat := []
  deriving DecidableEq, Repr

/-- The client when the page has loaded. -/
def Client.init : Client := {}

/-- The function `getLocalStream`: the stream is acquired on first use. -/
def getLocalStream (c : Client) : Client :=
  match c.localStream with
  | none => { c with localStream := some userMedia }
  | some _ => c

/-- The function `createPeerConnection(targetPeer)`.  The connection is
constructed first; `localStream.getTracks()` then throws when there is no
local stream, and nothing is stored.  Otherwise the new data channel and the
new connection are stored under `targetPeer`. -/
def createPeerConnection (c : Client) (targetPeer : SocketId) :
    Client × Option PeerConnection :=
  match c.localStream with
  | none => ({ c with constructed := c.constructed + 1 }, none)
  | some stream =>
    let pc : PeerConnection := { serial := c.constructed, senders := List.range stream.length }
    let dc : DataChannel := { pc := c.constructed }
    ({ c with
        constructed := c.constructed + 1
        dataChannels := objSet c.dataChannels targetPeer dc
        pcs := objSet c.pcs targetPeer pc },
      some pc)

/-- The function `callPeer(peerId)`: a new connection, its offer set as local
description, and the offer sent to `peerId`. -/
def callPeer (c : Client) (peerId : SocketId) : Client × List ClientMsg :=
  match createPeerConnection c peerId with
  | (c', none) => (c', [])
  | (c', some pc) =>
    let offer : Sdp := pc.serial
    let pc' : PeerConnection := { pc with localDescription := some offer }
    ({ c' with pcs := objSet c'.pcs peerId pc' },
      [ClientMsg.signal peerId c'.myId (Payload.offer offer)])

/-- The function `handleOffer(from, sdp)`: a new connection, the offer set as
remote description, the answer set as local description and sent back. -/
def handleOffer (c : Client) (from_ : SocketId) (sdp : Sdp) : Client × List ClientMsg :=
  match createPeerConnection c from_ with
  | (c', none) => (c', [])
  | (c', some pc) =>
    let answer : Sdp := pc.serial
    let pc' : PeerConnection :=
      { pc with remoteDescription := some sdp, localDescription := some answer }
    ({ c' with pcs := objSet c'.pcs from_ pc' },
      [ClientMsg.signal from_ c'.myId (Payload.answer answer)])

/-- The function `handleAnswer(from, sdp)`.  Without a connection for `from`
it returns.  `setRemoteDescription` of an answer rejects on a connection that
already has a remote description (signalling state `stable`); the rejection
is not caught and the connection stays as it is.  A connection stored in
`pcs` without a remote description has the local offer `callPeer` set on it. -/
def handleAnswer (c : Client) (from_ : SocketId) (sdp : Sdp) : Client :=
  match objGet c.pcs from_ with
  | none => c
  | some pc =>
    match pc.remoteDescription with
    | some _ => c
    | none =>
      let pc' : PeerConnection := { pc with remoteDescription := some sdp }
      { c with pcs := objSet c.pcs from_ pc' }

/-- The function `handleRemoteIce(from, candidate)`.  Without a connection for
`from` it returns at once.  `addIceCandidate` rejects while the connection has
no remote description; the rejection is caught and logged, and the candidate
is gone. -/
def handleRemoteIce (c : Client) (from_ : SocketId) (candidate : String) : Client :=
  match objGet c.pcs from_ with
  | none => c
  | some pc =>
    match pc.remoteDescription with
    | none => c
    | some _ =>
      let pc' : PeerConnection := { pc with candidates := pc.candidates ++ [candidate] }
      { c with pcs := objSet c.pcs from_ pc' }

/-- The loop `for (const peer of peers) await callPeer(peer)` of the
`joined-room` handler. -/
def callPeers (c : Client) : List SocketId → Client × List ClientMsg
  | [] => (c, [])
  | peer :: rest =>
    let r₁ := callPeer c peer
    let r₂ := callPeers r₁.1 rest
    (r₂.1, r₁.2 ++ r₂.2)

/-- The socket handlers of `client.js`: the client after the event and the
messages it emitted to the relay. -/
def Client.handle (c : Client) : ServerMsg → Client × List ClientMsg
  | .joinedRoom you peers => callPeers (getLocalStream { c with myId := some you }) peers
  | .peerJoined id _ => callPeer (getLocalStream c) id
  | .peerLeft id =>
      ({ c with
          closed := c.closed ++ ((objGet c.pcs id).map (fun pc => pc.serial)).toList
          pcs := objDelete c.pcs id
          dataChannels := objDelete c.dataChannels id }, [])
  | .signal from_ (.offer sdp) => handleOffer c from_ sdp
  | .signal from_ (.answer sdp) => (handleAnswer c from_ sdp, [])
  | .signal from_ (.ice candidate) => (handleRemoteIce c from_ candidate, [])
  | .signal _ (.unknown _) => (c, [])

/-- The client after a sequence of events from the relay. -/
def Client.run (c : Client) : List ServerMsg → Client
  | [] => c
  | m :: ms => Client.run (c.handle m).1 ms

/-- Everything the client emits during a sequence of events from the relay. -/
def Client.emitted (c : Client) : List ServerMsg → List ClientMsg
  | [] => []
  | m :: ms => (c.handle m).2 ++ Client.emitted (c.handle m).1 ms

/-- A client message as the relay receives it from socket `id`.  A `null`
`from` is rendered as the key it becomes on the receiving side. -/
def toRelay (id : SocketId) : ClientMsg → ClientEvent
  | .joinRoom room userName => ClientEvent.joinRoom id room userName
  | .signal to_ from_ payload => ClientEvent.signal id to_ (from_.getD "null") payload
  | .leaveRoom room => ClientEvent.leaveRoom id room

/-- The events the relay addressed to socket `id` among its output. -/
def inbox (id : SocketId) (out : List (SocketId × ServerMsg)) : List ServerMsg :=
  (out.filter (fun x => x.1 = id)).map (fun x => x.2)

/-- The offers among a client's emitted messages, as (addressee, sdp) pairs. -/
def offersSent : List ClientMsg → List (SocketId × Sdp)
  | [] => []
  | .signal to_ _ (.offer sdp) :: rest => (to_, sdp) :: offersSent rest
  | _ :: rest => offersSent rest

/-- The client has not applied a remote description for `q`: it holds no
connection for `q`, or one whose remote description is unset. -/
def AwaitingRemote (c : Client) (q : SocketId) : Prop :=
  ∀ pc, objGet c.pcs q = some pc → pc.remoteDescription = none

/-- The `ice` signal messages from `q` carrying the candidates `cs`, in order. -/
def iceFrom (q : SocketId) (cs : List String) : List ServerMsg :=
  cs.map (fun k => ServerMsg.signal q (Payload.ice k))

/-! ### Scenario: A is in room "R" and B joins it -/

/-- The relay once A and B are connected and A has joined "R". -/
def glareRelay : Relay :=
  run Relay.init [ClientEvent.connection "A", ClientEvent.connection "B",
    ClientEvent.joinRoom "A" "R" "Alice"]

/-- Client A after the `joined-room` reply to its own join (no peers yet). -/
def glareA₀ : Client := (Client.init.handle (ServerMsg.joinedRoom "A" [])).1

/-- What the relay emits when B joins "R". -/
def glareNotified : List (SocketId × ServerMsg) :=
  (step glareRelay (ClientEvent.joinRoom "B" "R" "Bob")).2

/-- What A emits on handling its share of `glareNotified`. -/
def glareEmittedA : List ClientMsg := glareA₀.emitted (inbox "A" glareNotified)

/-- What B emits on handling its share of `glareNotified`. -/
def glareEmittedB : List ClientMsg := Client.init.emitted (inbox "B" glareNotified)

/-- What the relay forwards when it receives those messages. -/
def glareForwarded : List (SocketId × ServerMsg) :=
  outputs (step glareRelay (ClientEvent.joinRoom "B" "R" "Bob")).1
    (glareEmittedB.map (toRelay "B") ++ glareEmittedA.map (toRelay "A"))

/-- Client A after the notification and the forwarded messages. -/
def glareA : Client := (glareA₀.run (inbox "A" glareNotified)).run (inbox "A" glareForwarded)

/-- Client B after the notification and the forwarded messages. -/
def glareB : Client := (Client.init.run (inbox "B" glareNotified)).run (inbox "B" glareForwarded)

/-! ## `frontend/src/components/Room.jsx`: the `peersRef` bookkeeping -/

/-- A `SimplePeer` instance: which `new SimplePeer` call produced it, its
`initiator` option, its `connected` flag, and the texts handed to `send`. -/
structure SimplePeer where
  serial : Nat
  initiator : Bool
  connected : Bool := false
  sent : List String := []
  deriving DecidableEq, Repr

/-- The refs `peersRef.current` and `localStreamRef.current`, plus the number
of `new SimplePeer` calls. -/
structure RoomClient where
  peers : List (SocketId × SimplePeer) := []
  constructed : Nat := 0
  localStream : Option (List Track) := none
  deriving DecidableEq, Repr

/-- The function `createPeer(peerId, initiator)`. -/
def RoomClient.createPeer (c : RoomClient) (peerId : SocketId) (initiator : Bool) : RoomClient :=
  { c with
    peers := objSet c.peers peerId { serial := c.constructed, initiator := initiator }
    constructed := c.constructed + 1 }

/-- The `peer-joined` handler of `Room.jsx`. -/
def RoomClient.onPeerJoined (c : RoomClient) (id : SocketId) : RoomClient :=
  c.createPeer id true

/-! ## `public/client.js`: the buttons -/

/-- The code points `String.prototype.trim` strips: the ECMAScript WhiteSpace
and LineTerminator characters. -/
def isJsWhiteSpace (ch : Char) : Bool :=
  ch.toNat ∈ [0x09, 0x0A, 0x0B, 0x0C, 0x0D, 0x20, 0xA0, 0x1680, 0x2028, 0x2029, 0x202F, 0x205F,
    0x3000, 0xFEFF] || (0x2000 ≤ ch.toNat && ch.toNat ≤ 0x200A)

/-- The method `String.prototype.trim`. -/
def jsTrim (s : String) : String :=
  String.mk ((s.toList.dropWhile isJsWhiteSpace).reverse.dropWhile isJsWhiteSpace).reverse

/-- The statement `tracks.forEach(t => t.enabled = v)` over the tracks of one
kind (`getAudioTracks()` / `getVideoTracks()`) of a stream. -/
def setEnabled (kind : TrackKind) (v : Bool) (stream : List Track) : List Track :=
  stream.map (fun t => if t.kind = kind then { t with enabled := v } else t)

/-- The statement `dc.send(text)` guarded by `dc.readyState === 'open'`, on
one entry of `dataChannels`. -/
def sendTo (text : String) (e : SocketId × DataChannel) : SocketId × DataChannel :=
  if e.2.readyState = ChannelState.open_ then (e.1, { e.2 with sent := e.2.sent ++ [text] })
  else e

/-- The user actions `client.js` attaches `onclick` handlers to, with the
contents of the input fields they read. -/
inductive UiEvent where
  | join (roomInput nameInput : String)
  | leave
  | mute
  | video
  | sendChat (chatInput : String)
  deriving DecidableEq, Repr

/-- The handler `joinBtn.onclick`. -/
def joinBtnOnclick (c : Client) (roomInput nameInput : String) : Client × List ClientMsg :=
  let roomName := if roomInput = "" then "default-room" else roomInput
  let name := if nameInput = "" then "Anon" else nameInput
  (getLocalStream { c with roomName := some roomName }, [ClientMsg.joinRoom roomName name])

/-- The effect of `pc.close()` on an entry of `dataChannels`: a channel that
belongs to one of the closed connections reads `closed` from then on. -/
def closeChannelOf (serials : List Nat) (e : SocketId × DataChannel) : SocketId × DataChannel :=
  if e.2.pc ∈ serials then (e.1, { e.2 with readyState := ChannelState.closed }) else e

/-- The handler `leaveBtn.onclick`: nothing without a room name; otherwise
`leave-room` is emitted, every connection in `pcs` is closed, `pcs` is
emptied and `roomName` reset.  The entries of `dataChannels` are not removed;
those of the closed connections now read `closed`. -/
def leaveBtnOnclick (c : Client) : Client × List ClientMsg :=
  match c.roomName with
  | none => (c, [])
  | some room =>
    if room = "" then (c, [])
    else
      ({ c with
          closed := c.closed ++ c.pcs.map (fun e => e.2.serial)
          dataChannels := c.dataChannels.map (closeChannelOf (c.pcs.map (fun e => e.2.serial)))
          pcs := []
          roomName := none },
        [ClientMsg.leaveRoom room])

/-- The handler `muteBtn.onclick`. -/
def muteBtnOnclick (c : Client) : Client × List ClientMsg :=
  match c.localStream with
  | none => (c, [])
  | some stream =>
    ({ c with
        audioEnabled := !c.audioEnabled
        localStream := some (setEnabled TrackKind.audio (!c.audioEnabled) stream) }, [])

/-- The handler `videoBtn.onclick`. -/
def videoBtnOnclick (c : Client) : Client × List ClientMsg :=
  match c.localStream with
  | none => (c, [])
  | some stream =>
    ({ c with
        videoEnabled := !c.videoEnabled
        localStream := some (setEnabled TrackKind.video (!c.videoEnabled) stream) }, [])

/-- The handler `sendChat.onclick`. -/
def sendChatOnclick (c : Client) (chatInput : String) : Client × List ClientMsg :=
  let text := jsTrim chatInput
  if text = "" then (c, [])
  else ({ c with dataChannels := c.dataChannels.map (sendTo text) }, [])

/-- The client after a user action, and the messages it emitted to the relay. -/
def Client.ui (c : Client) : UiEvent → Client × List ClientMsg
  | .join roomInput nameInput => joinBtnOnclick c roomInput nameInput
  | .leave => leaveBtnOnclick c
  | .mute => muteBtnOnclick c
  | .video => videoBtnOnclick c
  | .sendChat chatInput => sendChatOnclick c chatInput

/-! ## `frontend/src/components/Room.jsx`: chat and track toggles -/

/-- The statement `peer.send(text)` guarded by `peer.connected`, on one entry
of `peersRef.current`. -/
def roomSendTo (text : String) (e : SocketId × SimplePeer) : SocketId × SimplePeer :=
  if e.2.connected then (e.1, { e.2 with sent := e.2.sent ++ [text] }) else e

/-- The function `sendChat` of `Room.jsx`, given the value of the chat input. -/
def RoomClient.sendChat (c : RoomClient) (chatInput : String) : RoomClient :=
  let text := jsTrim chatInput
  if text = "" then c else { c with peers := c.peers.map (roomSendTo text) }

/-- The statement `tracks.forEach(t => t.enabled = !t.enabled)` over the
tracks of one kind of a stream. -/
def flipEnabled (kind : TrackKind) (stream : List Track) : List Track :=
  stream.map (fun t => if t.kind = kind then { t with enabled := !t.enabled } else t)

/-- The function `toggleAudio` of `Room.jsx`. -/
def RoomClient.toggleAudio (c : RoomClient) : RoomClient :=
  match c.localStream with
  | none => c
  | some stream => { c with localStream := some (flipEnabled TrackKind.audio stream) }

/-- The function `toggleVideo` of `Room.jsx`. -/
def RoomClient.toggleVideo (c : RoomClient) : RoomClient :=
  match c.localStream with
  | none => c
  | some stream => { c with localStream := some (flipEnabled TrackKind.video stream) }

/-! ### Scenario: a chat text with one channel open -/

/-- A `client.js` client whose data channel to A has opened while the one to
C is still connecting. -/
def chatClient : Client :=
  { dataChannels := [("A", { pc := 0, readyState := ChannelState.open_ }), ("C", { pc := 1 })] }

/-- A `Room.jsx` client whose peer for A is connected while the one for C is
not yet. -/
def chatRoomClient : RoomClient :=
  { peers := [("A", { serial := 0, initiator := true, connected := true }),
              ("C", { serial := 1, initiator := true })] }

end RtcDemo

namespace RtcDemo

theorem mem_setAdd {l : List String} {x y : String} : y ∈ setAdd l x ↔ y ∈ l ∨ y = x := by
  unfold setAdd
  split
  · constructor
    · intro h; exact Or.inl h
    · rintro (h | h)
      · exact h
      · subst h; assumption
  · simp

theorem mem_setDelete {l : List String} {x y : String} : y ∈ setDelete l x ↔ y ∈ l ∧ y ≠ x := by
  simp [setDelete]

theorem nodup_setAdd {l : List String} (x : String) (h : l.Nodup) : (setAdd l x).Nodup := by
  unfold setAdd
  split
  · exact h
  · rename_i hx
    exact List.Nodup.append h (List.nodup_singleton x) (by simpa using hx)

theorem nodup_setDelete {l : List String} (x : String) (h : l.Nodup) : (setDelete l x).Nodup :=
  h.filter _

theorem inv_init : Inv Relay.init := by
  constructor <;> simp [Relay.init, Adapter.empty]

theorem inv_addAll {s : Relay} (h : Inv s) (id : SocketId) (room : Room) (hid : id ∈ s.sockets) :
    Inv { s with adapter := s.adapter.addAll id room } := by
  constructor
  · intro r q
    simp only [Adapter.addAll]
    by_cases hr : r = room <;> by_cases hq : q = id <;>
      simp [hr, hq, mem_setAdd, h.agree]
  · intro r
    simp only [Adapter.addAll]
    split
    · exact nodup_setAdd _ (h.roomsNodup r)
    · exact h.roomsNodup r
  · intro q
    simp only [Adapter.addAll]
    split
    · exact nodup_setAdd _ (h.sidsNodup q)
    · exact h.sidsNodup q
  · intro r q
    simp only [Adapter.addAll]
    split
    · rw [mem_setAdd]
      rintro (hq | hq)
      · exact h.live r q hq
      · subst hq; exact hid
    · exact h.live r q
  · exact h.socketsNodup

theorem inv_del {s : Relay} (h : Inv s) (id : SocketId) (room : Room) :
    Inv { s with adapter := s.adapter.del id room } := by
  constructor
  · intro r q
    simp only [Adapter.del]
    by_cases hr : r = room <;> by_cases hq : q = id <;>
      simp [hr, hq, mem_setDelete, h.agree]
  · intro r
    simp only [Adapter.del]
    split
    · exact nodup_setDelete _ (h.roomsNodup r)
    · exact h.roomsNodup r
  · intro q
    simp only [Adapter.del]
    split
    · exact nodup_setDelete _ (h.sidsNodup q)
    · exact h.sidsNodup q
  · intro r q
    simp only [Adapter.del]
    split
    · rw [mem_setDelete]
      exact fun hq => h.live r q hq.1
    · exact h.live r q
  · exact h.socketsNodup

theorem mem_rooms_delAll {s : Relay} (h : Inv s) (id q : SocketId) (r : Room) :
    q ∈ (s.adapter.delAll id).rooms r ↔ q ∈ s.adapter.rooms r ∧ q ≠ id := by
  simp only [Adapter.delAll]
  split
  · exact mem_setDelete
  · rename_i hr
    constructor
    · intro hq
      refine ⟨hq, ?_⟩
      rintro rfl
      exact hr ((h.agree r q).1 hq)
    · exact fun hq => hq.1

theorem inv_step {s : Relay} (h : Inv s) (e : ClientEvent) : Inv (step s e).1 := by
  cases e with
  | connection id =>
    simp only [step]
    split
    · exact h
    · rename_i hid
      have h1 : Inv { sockets := s.sockets ++ [id], adapter := s.adapter } :=
        ⟨h.agree, h.roomsNodup, h.sidsNodup,
          fun r q hq => List.mem_append_left _ (h.live r q hq),
          List.Nodup.append h.socketsNodup (List.nodup_singleton id) (by simpa using hid)⟩
      exact inv_addAll h1 id id (by simp)
  | joinRoom id room userName =>
    simp only [step]
    split
    · rename_i hid
      exact inv_addAll h id room hid
    · exact h
  | signal id to_ from_ payload =>
    simp only [step]
    split
    · exact h
    · exact h
  | leaveRoom id room =>
    simp only [step]
    split
    · exact inv_del h id room
    · exact h
  | disconnect id =>
    simp only [step]
    split
    · constructor
      · intro r q
        rw [mem_rooms_delAll h]
        simp only [Adapter.delAll]
        by_cases hq : q = id
        · simp [hq]
        · simp [hq, h.agree]
      · intro r
        simp only [Adapter.delAll]
        split
        · exact nodup_setDelete _ (h.roomsNodup r)
        · exact h.roomsNodup r
      · intro q
        simp only [Adapter.delAll]
        split
        · exact List.nodup_nil
        · exact h.sidsNodup q
      · intro r q hq
        rw [mem_rooms_delAll h] at hq
        exact List.mem_filter.2 ⟨h.live r q hq.1, by simpa using hq.2⟩
      · exact h.socketsNodup.filter _
    · exact h

theorem inv_run {s : Relay} (h : Inv s) (tr : List ClientEvent) : Inv (run s tr) := by
  induction tr generalizing s with
  | nil => exact h
  | cons e es ih => exact ih (inv_step h e)

theorem run_append (s : Relay) (tr₁ tr₂ : List ClientEvent) :
    run s (tr₁ ++ tr₂) = run (run s tr₁) tr₂ := by
  induction tr₁ generalizing s with
  | nil => rfl
  | cons e es ih => exact ih (step s e).1

theorem outputs_append (s : Relay) (tr₁ tr₂ : List ClientEvent) :
    outputs s (tr₁ ++ tr₂) = outputs s tr₁ ++ outputs (run s tr₁) tr₂ := by
  induction tr₁ generalizing s with
  | nil => rfl
  | cons e es ih => simp [outputs, run, ih]

theorem wellFormedFrom_append (s : Relay) (tr₁ tr₂ : List ClientEvent) :
    wellFormedFrom s (tr₁ ++ tr₂) =
      (wellFormedFrom s tr₁ && wellFormedFrom (run s tr₁) tr₂) := by
  induction tr₁ generalizing s with
  | nil => simp [wellFormedFrom, run]
  | cons e es ih => simp [wellFormedFrom, run, ih, Bool.and_assoc]

theorem mem_rooms_step {s : Relay} (h : Inv s) {e : ClientEvent} (he : accepts s e = true)
    (q : SocketId) (r : Room) :
    q ∈ (step s e).1.adapter.rooms r ↔
      (q ∈ s.adapter.rooms r ∧ e ≠ ClientEvent.leaveRoom q r ∧ e ≠ ClientEvent.disconnect q)
        ∨ Enters e q r := by
  cases e with
  | connection id =>
    have hid : id ∉ s.sockets := by simpa [accepts] using he
    simp only [step, if_neg hid, Adapter.addAll, Enters]
    by_cases hr : r = id
    · simp [hr, mem_setAdd, eq_comm]
    · simp only [if_neg hr]
      constructor
      · intro hq; exact Or.inl ⟨hq, by simp, by simp⟩
      · rintro (hq | hq | hq)
        · exact hq.1
        · obtain ⟨_, hq⟩ := hq; cases hq
        · obtain ⟨hq, rfl⟩ := hq
          simp only [ClientEvent.connection.injEq] at hq
          exact absurd hq.symm hr
  | joinRoom id room userName =>
    have hid : id ∈ s.sockets := by simpa [accepts] using he
    simp only [step, if_pos hid, onJoinRoom, Adapter.addAll, Enters]
    by_cases hr : r = room
    · subst hr
      simp [mem_setAdd, eq_comm]
    · have hr' : ¬ room = r := fun h' => hr h'.symm
      simp [hr, hr']
  | signal id to_ from_ payload =>
    have hid : id ∈ s.sockets := by simpa [accepts] using he
    simp [step, hid, onSignal, Enters]
  | leaveRoom id room =>
    have hid : id ∈ s.sockets := by simpa [accepts] using he
    simp only [step, if_pos hid, onLeaveRoom, Adapter.del, Enters]
    by_cases hr : r = room
    · subst hr
      simp only [if_true, mem_setDelete]
      by_cases hq : q = id
      · simp [hq]
      · have hq' : ¬ id = q := fun h' => hq h'.symm
        simp [hq, hq']
    · have hr' : ¬ room = r := fun h' => hr h'.symm
      simp [hr, hr']
  | disconnect id =>
    have hid : id ∈ s.sockets := by simpa [accepts] using he
    simp only [step, if_pos hid, Enters]
    rw [mem_rooms_delAll h]
    by_cases hq : q = id
    · simp [hq]
    · have hq' : ¬ id = q := fun h' => hq h'.symm
      simp [hq, hq']

theorem snoc_eq_append_cons {α : Type} {tr pre post : List α} {e e' : α} :
    tr ++ [e] = pre ++ e' :: post ↔
      (post = [] ∧ tr = pre ∧ e = e') ∨ ∃ post', post = post' ++ [e] ∧ tr = pre ++ e' :: post' := by
  constructor
  · intro h
    rcases List.eq_nil_or_concat post with hp | ⟨post', b, hp⟩
    · subst hp
      have h' : tr ++ [e] = pre ++ [e'] := h
      obtain ⟨h1, h2⟩ := List.append_inj' h' rfl
      exact Or.inl ⟨rfl, h1, by simpa using h2⟩
    · subst hp
      have h' : tr ++ [e] = (pre ++ e' :: post') ++ [b] := by simpa using h
      obtain ⟨h1, h2⟩ := List.append_inj' h' rfl
      have hb : e = b := by simpa using h2
      subst hb
      exact Or.inr ⟨post', by simp, h1⟩
  · rintro (⟨rfl, rfl, rfl⟩ | ⟨post', rfl, rfl⟩) <;> simp

theorem enteredLive_snoc (tr : List ClientEvent) (e : ClientEvent) (q : SocketId) (r : Room) :
    EnteredLive (tr ++ [e]) q r ↔
      (EnteredLive tr q r ∧ e ≠ ClientEvent.leaveRoom q r ∧ e ≠ ClientEvent.disconnect q)
        ∨ Enters e q r := by
  constructor
  · rintro ⟨pre, e', post, heq, hent, hl, hd⟩
    rcases snoc_eq_append_cons.1 heq with ⟨rfl, rfl, rfl⟩ | ⟨post', rfl, rfl⟩
    · exact Or.inr hent
    · refine Or.inl ⟨⟨pre, e', post', rfl, hent, ?_, ?_⟩, ?_, ?_⟩
      · exact fun hm => hl (List.mem_append_left _ hm)
      · exact fun hm => hd (List.mem_append_left _ hm)
      · rintro rfl; exact hl (by simp)
      · rintro rfl; exact hd (by simp)
  · rintro (⟨⟨pre, e', post, rfl, hent, hl, hd⟩, h1, h2⟩ | hent)
    · refine ⟨pre, e', post ++ [e], by simp, hent, ?_, ?_⟩
      · simp only [List.mem_append, List.mem_singleton, not_or]
        exact ⟨hl, fun h' => h1 h'.symm⟩
      · simp only [List.mem_append, List.mem_singleton, not_or]
        exact ⟨hd, fun h' => h2 h'.symm⟩
    · exact ⟨tr, e, [], rfl, hent, by simp, by simp⟩

theorem not_enteredLive_nil (q : SocketId) (r : Room) : ¬ EnteredLive [] q r := by
  rintro ⟨pre, e, post, h, -⟩
  simp at h

/-- After a well-formed history the members of a room are exactly the sockets
that entered it and have not left or disconnected since. -/
theorem mem_rooms_iff_enteredLive (tr : List ClientEvent) (hwf : WellFormed tr)
    (q : SocketId) (r : Room) :
    q ∈ (run Relay.init tr).adapter.rooms r ↔ EnteredLive tr q r := by
  induction tr using List.reverseRecOn with
  | nil =>
    simp only [run]
    constructor
    · intro h; simp [Relay.init, Adapter.empty] at h
    · exact fun h => absurd h (not_enteredLive_nil q r)
  | append_singleton tr e ih =>
    have hwf' : wellFormedFrom Relay.init tr = true ∧ accepts (run Relay.init tr) e = true := by
      have := hwf
      unfold WellFormed at this
      rw [wellFormedFrom_append] at this
      simpa [wellFormedFrom] using this
    rw [run_append, enteredLive_snoc]
    simp only [run]
    rw [mem_rooms_step (inv_run inv_init tr) hwf'.2, ih hwf'.1]

theorem joinedLive_mem {tr : List ClientEvent} {q : SocketId} {r : Room}
    (h : JoinedLive tr q r) : ∃ userName, ClientEvent.joinRoom q r userName ∈ tr := by
  obtain ⟨pre, userName, post, rfl, -⟩ := h
  exact ⟨userName, by simp⟩

theorem mem_sockets_step (s : Relay) {e : ClientEvent} (he : accepts s e = true)
    (q : SocketId) :
    q ∈ (step s e).1.sockets ↔
      (q ∈ s.sockets ∧ e ≠ ClientEvent.disconnect q) ∨ e = ClientEvent.connection q := by
  cases e with
  | connection id =>
    have hid : id ∉ s.sockets := by simpa [accepts] using he
    simp [step, hid, eq_comm]
  | joinRoom id room userName =>
    have hid : id ∈ s.sockets := by simpa [accepts] using he
    simp [step, hid, onJoinRoom]
  | signal id to_ from_ payload =>
    have hid : id ∈ s.sockets := by simpa [accepts] using he
    simp [step, hid, onSignal]
  | leaveRoom id room =>
    have hid : id ∈ s.sockets := by simpa [accepts] using he
    simp [step, hid, onLeaveRoom]
  | disconnect id =>
    have hid : id ∈ s.sockets := by simpa [accepts] using he
    simp only [step, if_pos hid, List.mem_filter, decide_eq_true_eq]
    by_cases hq : q = id
    · simp [hq]
    · have hq' : ¬ id = q := fun h' => hq h'.symm
      simp [hq, hq']

theorem eq_of_nodup_of_mem_iff {l : List String} {a : String} {P : Prop} [Decidable P]
    (hl : l.Nodup) (h : ∀ q, q ∈ l ↔ q = a ∧ P) : l = if P then [a] else [] := by
  split
  · rename_i hP
    cases l with
    | nil =>
      have := (h a).2 ⟨rfl, hP⟩
      simp at this
    | cons x xs =>
      have hx : x = a := ((h x).1 (by simp)).1
      subst hx
      cases xs with
      | nil => rfl
      | cons y ys =>
        have hy : y = x := ((h y).1 (by simp)).1
        subst hy
        simp at hl
  · rename_i hP
    cases l with
    | nil => rfl
    | cons x xs => exact absurd ((h x).1 (by simp)).2 hP

/-- When no client has ever asked to join or leave the room named `t`, that
room holds the socket `t` alone while it is connected, and nobody otherwise. -/
theorem private_room_intact (tr : List ClientEvent) (hwf : WellFormed tr) (t : SocketId)
    (hroom : ∀ e ∈ tr, ∀ q userName,
      e ≠ ClientEvent.joinRoom q t userName ∧ e ≠ ClientEvent.leaveRoom q t) :
    (run Relay.init tr).adapter.rooms t
      = if t ∈ (run Relay.init tr).sockets then [t] else [] := by
  refine eq_of_nodup_of_mem_iff ((inv_run inv_init tr).roomsNodup t) ?_
  induction tr using List.reverseRecOn with
  | nil => intro q; simp [run, Relay.init, Adapter.empty]
  | append_singleton tr e ih =>
    intro q
    have hacc : accepts (run Relay.init tr) e = true := by
      unfold WellFormed at hwf
      rw [wellFormedFrom_append] at hwf
      have := hwf
      simp [wellFormedFrom] at this
      exact this.2
    have hwf' : WellFormed tr := by
      unfold WellFormed at hwf ⊢
      rw [wellFormedFrom_append] at hwf
      simp [wellFormedFrom] at hwf
      exact hwf.1
    have ih' := ih hwf' (fun e' he' => hroom e' (List.mem_append_left _ he'))
    have he := hroom e (by simp)
    rw [run_append]
    simp only [run]
    rw [mem_rooms_step (inv_run inv_init tr) hacc, mem_sockets_step _ hacc, ih' q]
    have hent : Enters e q t ↔ e = ClientEvent.connection q ∧ t = q := by
      constructor
      · rintro (⟨userName, hj⟩ | hc)
        · exact absurd hj (he q userName).1
        · exact hc
      · exact fun hc => Or.inr hc
    rw [hent]
    constructor
    · rintro (⟨⟨rfl, ht⟩, -, hd⟩ | ⟨rfl, rfl⟩)
      · exact ⟨rfl, Or.inl ⟨ht, hd⟩⟩
      · exact ⟨rfl, Or.inr rfl⟩
    · rintro ⟨rfl, ⟨ht, hd⟩ | hc⟩
      · exact Or.inl ⟨⟨rfl, ht⟩, (he q "").2, hd⟩
      · exact Or.inr ⟨hc, rfl⟩

theorem Relay.eq_of {s t : Relay} (h1 : s.sockets = t.sockets)
    (h2 : ∀ r, s.adapter.rooms r = t.adapter.rooms r)
    (h3 : ∀ q, s.adapter.sids q = t.adapter.sids q) : s = t := by
  obtain ⟨ss, ⟨sr, sq⟩⟩ := s
  obtain ⟨ts, ⟨tr, tq⟩⟩ := t
  simp only at h1 h2 h3
  have hr : sr = tr := funext h2
  have hq : sq = tq := funext h3
  subst h1 hr hq
  rfl

theorem setDelete_of_not_mem {l : List String} {x : String} (h : x ∉ l) : setDelete l x = l := by
  unfold setDelete
  rw [List.filter_eq_self]
  intro y hy
  have : y ≠ x := fun hxy => h (hxy ▸ hy)
  simpa using this

theorem setAdd_of_mem {l : List String} {x : String} (h : x ∈ l) : setAdd l x = l := by
  simp [setAdd, h]

theorem filter_ne_setDelete (l : List String) (x : String) :
    (setDelete l x).filter (fun q => q ≠ x) = l.filter (fun q => q ≠ x) := by
  simp [setDelete, List.filter_filter]

theorem setDelete_setDelete (l : List String) (x : String) :
    setDelete (setDelete l x) x = setDelete l x := by
  simp [setDelete, List.filter_filter]

theorem filter_ne_setAdd (l : List String) (x : String) :
    (setAdd l x).filter (fun q => q ≠ x) = l.filter (fun q => q ≠ x) := by
  unfold setAdd
  split
  · rfl
  · simp [List.filter_append]

theorem filter_not_mem_singleton (l : List SocketId) (p : SocketId) :
    l.filter (fun q => q ∉ [p]) = l.filter (fun q => q ≠ p) := by
  refine List.filter_congr ?_
  intro q _
  simp

/-- While the room named `p` holds `p` alone, `socket.to(room)` of socket `p`
reaches the sockets of `room` other than `p`. -/
theorem socketTo_of_own_room {a : Adapter} {p : SocketId} (hown : a.rooms p = [p])
    (room : Room) (m : ServerMsg) :
    socketTo a p room m = ((a.rooms room).filter (fun q => q ≠ p)).map (fun q => (q, m)) := by
  simp only [socketTo, hown, filter_not_mem_singleton]

/-- The room named `p` holds `p` alone when `p` is connected and no client has
ever asked to join or leave a room of that name. -/
theorem own_room_intact {tr : List ClientEvent} {e : ClientEvent} {p : SocketId}
    (hwf : WellFormed (tr ++ [e])) (hp : p ∈ (run Relay.init tr).sockets)
    (hroom : ∀ e ∈ tr, ∀ q userName,
      e ≠ ClientEvent.joinRoom q p userName ∧ e ≠ ClientEvent.leaveRoom q p) :
    (run Relay.init tr).adapter.rooms p = [p] := by
  have hwf' : WellFormed tr := by
    unfold WellFormed at hwf ⊢
    rw [wellFormedFrom_append] at hwf
    simp [wellFormedFrom] at hwf
    exact hwf.1
  rw [private_room_intact tr hwf' p hroom, if_pos hp]

/-- Explicit `leave-room`s of `p` for a list of rooms other than its own,
issued one after the other while the room named `p` holds `p` alone, emit
`peer-left` to the members of each room other than `p`. -/
theorem outputs_leaveRooms (s s' : Relay) (p : SocketId) (hp : p ∈ s'.sockets)
    (hown : s'.adapter.rooms p = [p])
    (hrel : ∀ r, (s'.adapter.rooms r).filter (fun q => q ≠ p)
      = (s.adapter.rooms r).filter (fun q => q ≠ p)) (rs : List Room)
    (hrs : ∀ r ∈ rs, r ≠ p) :
    outputs s' (rs.map (fun r => ClientEvent.leaveRoom p r))
      = rs.flatMap (fun r =>
          ((s.adapter.rooms r).filter (fun q => q ≠ p)).map
            (fun q => (q, ServerMsg.peerLeft p))) := by
  induction rs generalizing s' with
  | nil => rfl
  | cons r rs ih =>
    have hr : r ≠ p := hrs r (by simp)
    have hpr : ¬ p = r := fun h => hr h.symm
    have hown' : (s'.adapter.del p r).rooms p = [p] := by
      simp only [Adapter.del, if_neg hpr]
      exact hown
    simp only [List.map_cons, outputs, List.flatMap_cons]
    have h1 : (step s' (ClientEvent.leaveRoom p r)).2
        = ((s.adapter.rooms r).filter (fun q => q ≠ p)).map
            (fun q => (q, ServerMsg.peerLeft p)) := by
      simp only [step, if_pos hp, onLeaveRoom]
      rw [socketTo_of_own_room hown']
      simp only [Adapter.del, if_true]
      rw [filter_ne_setDelete, hrel]
    rw [h1, ih]
    · simp only [step, if_pos hp, onLeaveRoom]
      exact hp
    · simp only [step, if_pos hp, onLeaveRoom]
      exact hown'
    · intro r'
      simp only [step, if_pos hp, onLeaveRoom, Adapter.del]
      split
      · rw [filter_ne_setDelete, hrel]
      · exact hrel r'
    · exact fun r' hr' => hrs r' (List.mem_cons_of_mem _ hr')

theorem countP_pair_of_not_mem (l : List SocketId) (m : ServerMsg) (q : SocketId)
    (hq : q ∉ l) :
    (l.map (fun a => (a, m))).countP (fun x => decide (x = (q, m))) = 0 := by
  rw [List.countP_eq_zero]
  intro x hx
  obtain ⟨a, ha, rfl⟩ := List.mem_map.1 hx
  have : a ≠ q := fun h => hq (h ▸ ha)
  simpa using this

theorem countP_pair_of_mem (l : List SocketId) (m : ServerMsg) (q : SocketId)
    (hl : l.Nodup) (hq : q ∈ l) :
    (l.map (fun a => (a, m))).countP (fun x => decide (x = (q, m))) = 1 := by
  induction l with
  | nil => simp at hq
  | cons a l ih =>
    obtain ⟨ha, hl'⟩ := List.nodup_cons.1 hl
    by_cases haq : a = q
    · subst haq
      have h0 := countP_pair_of_not_mem l m a ha
      rw [List.map_cons, List.countP_cons_of_pos _ _ (by simp), h0]
    · have hq' : q ∈ l := by
        rcases List.mem_cons.1 hq with h | h
        · exact absurd h.symm haq
        · exact h
      rw [List.map_cons, List.countP_cons_of_neg _ _ (by simpa using haq)]
      exact ih hl' hq'

theorem wellFormed_snoc {tr : List ClientEvent} {e : ClientEvent} (h : WellFormed (tr ++ [e])) :
    WellFormed tr ∧ accepts (run Relay.init tr) e = true := by
  unfold WellFormed at h ⊢
  rw [wellFormedFrom_append] at h
  simpa [wellFormedFrom] using h

/-- C1 (amended): the `joined-room` reply to a joining socket `p` carries
`you = p`, and its `peers` are exactly the sockets other than `p` that entered
the room (by `join-room`, or by the automatic join at connection when the room
is named by their own id) and have not left it or disconnected since. -/
theorem C1_joined_room_reply (tr : List ClientEvent) (p : SocketId) (r : Room)
    (userName : String) (hwf : WellFormed (tr ++ [ClientEvent.joinRoom p r userName])) :
    ∃ peers rest,
      (step (run Relay.init tr) (ClientEvent.joinRoom p r userName)).2
          = (p, ServerMsg.joinedRoom p peers) :: rest ∧
      (∀ x ∈ rest, x.2 = ServerMsg.peerJoined p userName) ∧
      peers.Nodup ∧
      ∀ q, q ∈ peers ↔ q ≠ p ∧ EnteredLive tr q r := by
  obtain ⟨hwf', hacc⟩ := wellFormed_snoc hwf
  have hp : p ∈ (run Relay.init tr).sockets := by simpa [accepts] using hacc
  have hinv := inv_run inv_init tr
  have hout : (step (run Relay.init tr) (ClientEvent.joinRoom p r userName)).2
      = (p, ServerMsg.joinedRoom p
          ((((run Relay.init tr).adapter.addAll p r).rooms r).filter (fun q => q ≠ p)))
        :: socketTo ((run Relay.init tr).adapter.addAll p r) p r
            (ServerMsg.peerJoined p userName) := by
    simp only [step, if_pos hp, onJoinRoom]
  refine ⟨_, _, hout, ?_, ?_, ?_⟩
  · intro x hx
    simp only [socketTo, List.mem_map] at hx
    obtain ⟨q, -, rfl⟩ := hx
    rfl
  · refine List.Nodup.filter _ ?_
    simp only [Adapter.addAll, if_true]
    exact nodup_setAdd _ (hinv.roomsNodup r)
  · intro q
    rw [← mem_rooms_iff_enteredLive tr hwf' q r]
    simp only [Adapter.addAll, if_true, List.mem_filter, mem_setAdd, decide_eq_true_eq]
    constructor
    · rintro ⟨hq | hq, hne⟩
      · exact ⟨hne, hq⟩
      · exact absurd hq hne
    · rintro ⟨hne, hq⟩
      exact ⟨Or.inl hq, hne⟩

/-- Witness for `C1_joined_room_reply`: socket B joins a room that A is in. -/
theorem C1_joined_room_reply_witness :
    WellFormed ([ClientEvent.connection "A", ClientEvent.connection "B",
      ClientEvent.joinRoom "A" "R" "Alice"] ++ [ClientEvent.joinRoom "B" "R" "Bob"]) ∧
    ∃ peers rest,
      (step (run Relay.init [ClientEvent.connection "A", ClientEvent.connection "B",
          ClientEvent.joinRoom "A" "R" "Alice"]) (ClientEvent.joinRoom "B" "R" "Bob")).2
          = ("B", ServerMsg.joinedRoom "B" peers) :: rest ∧
      (∀ x ∈ rest, x.2 = ServerMsg.peerJoined "B" "Bob") ∧
      peers.Nodup ∧
      ∀ q, q ∈ peers ↔ q ≠ "B" ∧
        EnteredLive [ClientEvent.connection "A", ClientEvent.connection "B",
          ClientEvent.joinRoom "A" "R" "Alice"] q "R" :=
  ⟨by decide, C1_joined_room_reply _ "B" "R" "Bob" (by decide)⟩

/-- C1 as stated fails: with A and B connected and no `join-room` processed
yet, B joins the room named "A" and is told that A is a peer, although A has
never joined that room by a `join-room`. -/
theorem C1_counterexample :
    WellFormed [ClientEvent.connection "A", ClientEvent.connection "B",
      ClientEvent.joinRoom "B" "A" "Bob"] ∧
    replyPeers "B" (step (run Relay.init [ClientEvent.connection "A", ClientEvent.connection "B"])
      (ClientEvent.joinRoom "B" "A" "Bob")).2 = some ["A"] ∧
    ¬ JoinedLive [ClientEvent.connection "A", ClientEvent.connection "B"] "A" "A" := by
  refine ⟨by decide, by decide, ?_⟩
  intro h
  obtain ⟨userName, hmem⟩ := joinedLive_mem h
  simp at hmem

/-- C2 (amended): whatever the sender, every message the `signal` handler
forwards carries the `from` value found in the received envelope. -/
theorem C2_signal_from_is_client_supplied (s : Relay) (id to_ from_ : SocketId)
    (payload : Payload) :
    ∀ x ∈ (step s (ClientEvent.signal id to_ from_ payload)).2,
      x.2 = ServerMsg.signal from_ payload := by
  intro x hx
  simp only [step, onSignal, ioTo] at hx
  split at hx
  · simp only [List.mem_map] at hx
    obtain ⟨q, -, rfl⟩ := hx
    rfl
  · simp at hx

/-- Witness for `C2_signal_from_is_client_supplied`: A signals B with its own
id as `from`, and the message B gets carries that value. -/
theorem C2_signal_from_is_client_supplied_witness :
    ("B", ServerMsg.signal "A" (Payload.offer 0)) ∈
      (step (run Relay.init [ClientEvent.connection "A", ClientEvent.connection "B"])
        (ClientEvent.signal "A" "B" "A" (Payload.offer 0))).2 ∧
    ("B", ServerMsg.signal "A" (Payload.offer 0)).2 = ServerMsg.signal "A" (Payload.offer 0) :=
  ⟨by decide,
    C2_signal_from_is_client_supplied
      (run Relay.init [ClientEvent.connection "A", ClientEvent.connection "B"])
      "A" "B" "A" (Payload.offer 0) ("B", ServerMsg.signal "A" (Payload.offer 0)) (by decide)⟩

/-- C2 as stated fails: socket A sends an envelope with `from = "Z"` to B, and
B receives a message whose `from` is "Z", not the sender's id "A". -/
theorem C2_counterexample :
    (step (run Relay.init [ClientEvent.connection "A", ClientEvent.connection "B"])
      (ClientEvent.signal "A" "B" "Z" (Payload.offer 0))).2
      = [("B", ServerMsg.signal "Z" (Payload.offer 0))] ∧ "Z" ≠ "A" := by
  decide

/-- C5 (amended): a received `signal` envelope leaves the room registry
unchanged and is delivered, payload untouched, once to each socket of the room
named `to`.  When no client has ever asked to join or leave a room of that
name, this is the participant `to` alone if it is connected, and nobody
otherwise. -/
theorem C5_signal_delivery (tr : List ClientEvent) (id to_ from_ : SocketId) (payload : Payload)
    (hwf : WellFormed (tr ++ [ClientEvent.signal id to_ from_ payload])) :
    (step (run Relay.init tr) (ClientEvent.signal id to_ from_ payload)).1 = run Relay.init tr ∧
    (step (run Relay.init tr) (ClientEvent.signal id to_ from_ payload)).2
      = ((run Relay.init tr).adapter.rooms to_).map
          (fun q => (q, ServerMsg.signal from_ payload)) ∧
    ((run Relay.init tr).adapter.rooms to_).Nodup ∧
    ((∀ e ∈ tr, ∀ q userName,
        e ≠ ClientEvent.joinRoom q to_ userName ∧ e ≠ ClientEvent.leaveRoom q to_) →
      (step (run Relay.init tr) (ClientEvent.signal id to_ from_ payload)).2
        = if to_ ∈ (run Relay.init tr).sockets
          then [(to_, ServerMsg.signal from_ payload)] else []) := by
  obtain ⟨hwf', hacc⟩ := wellFormed_snoc hwf
  have hid : id ∈ (run Relay.init tr).sockets := by simpa [accepts] using hacc
  have hout : (step (run Relay.init tr) (ClientEvent.signal id to_ from_ payload)).2
      = ((run Relay.init tr).adapter.rooms to_).map
          (fun q => (q, ServerMsg.signal from_ payload)) := by
    simp only [step, if_pos hid, onSignal, ioTo]
  refine ⟨by simp only [step, if_pos hid, onSignal], hout,
    (inv_run inv_init tr).roomsNodup to_, ?_⟩
  intro hroom
  rw [hout, private_room_intact tr hwf' to_ hroom]
  split <;> rfl

/-- Witness for `C5_signal_delivery`: A signals B after both connected. -/
theorem C5_signal_delivery_witness :
    WellFormed ([ClientEvent.connection "A", ClientEvent.connection "B"]
      ++ [ClientEvent.signal "A" "B" "A" (Payload.ice "c")]) ∧
    (step (run Relay.init [ClientEvent.connection "A", ClientEvent.connection "B"])
      (ClientEvent.signal "A" "B" "A" (Payload.ice "c"))).2
      = ((run Relay.init [ClientEvent.connection "A", ClientEvent.connection "B"]).adapter.rooms
          "B").map (fun q => (q, ServerMsg.signal "A" (Payload.ice "c"))) :=
  ⟨by decide,
    (C5_signal_delivery [ClientEvent.connection "A", ClientEvent.connection "B"]
      "A" "B" "A" (Payload.ice "c") (by decide)).2.1⟩

/-- C5 as stated fails: B has joined the room named "A", so a signal that C
addresses to the live participant A is delivered to A and to B. -/
theorem C5_counterexample :
    WellFormed [ClientEvent.connection "A", ClientEvent.connection "B",
      ClientEvent.connection "C", ClientEvent.joinRoom "B" "A" "Bob",
      ClientEvent.signal "C" "A" "C" (Payload.offer 0)] ∧
    "A" ∈ (run Relay.init [ClientEvent.connection "A", ClientEvent.connection "B",
      ClientEvent.connection "C", ClientEvent.joinRoom "B" "A" "Bob"]).sockets ∧
    (step (run Relay.init [ClientEvent.connection "A", ClientEvent.connection "B",
      ClientEvent.connection "C", ClientEvent.joinRoom "B" "A" "Bob"])
      (ClientEvent.signal "C" "A" "C" (Payload.offer 0))).2
      = [("A", ServerMsg.signal "C" (Payload.offer 0)),
         ("B", ServerMsg.signal "C" (Payload.offer 0))] := by
  decide

/-- C6 (amended): on a `join-room` of `p` with display name `userName` into
`r`, every `peer-joined` the relay emits is `peer-joined {id: p, userName}`,
and it goes exactly once to each member of `r` that is not in the room named
by `p`'s id, and to nobody else.  When no client has ever asked to join or
leave a room of that name, these are the members of `r` other than `p`. -/
theorem C6_peer_joined_fanout (tr : List ClientEvent) (p : SocketId) (r : Room)
    (userName : String) (hwf : WellFormed (tr ++ [ClientEvent.joinRoom p r userName])) :
    (∀ q m, (q, m) ∈ (step (run Relay.init tr) (ClientEvent.joinRoom p r userName)).2 →
      (∃ i u, m = ServerMsg.peerJoined i u) →
        m = ServerMsg.peerJoined p userName ∧
        q ∈ (step (run Relay.init tr) (ClientEvent.joinRoom p r userName)).1.adapter.rooms r ∧
        q ∉ (step (run Relay.init tr) (ClientEvent.joinRoom p r userName)).1.adapter.rooms p) ∧
    (∀ q, q ∈ (step (run Relay.init tr) (ClientEvent.joinRoom p r userName)).1.adapter.rooms r →
      q ∉ (step (run Relay.init tr) (ClientEvent.joinRoom p r userName)).1.adapter.rooms p →
      (step (run Relay.init tr) (ClientEvent.joinRoom p r userName)).2.countP
        (fun x => decide (x = (q, ServerMsg.peerJoined p userName))) = 1) ∧
    ((∀ e ∈ tr, ∀ q u, e ≠ ClientEvent.joinRoom q p u ∧ e ≠ ClientEvent.leaveRoom q p) →
      (∀ q m, (q, m) ∈ (step (run Relay.init tr) (ClientEvent.joinRoom p r userName)).2 →
        (∃ i u, m = ServerMsg.peerJoined i u) →
          m = ServerMsg.peerJoined p userName ∧ q ≠ p ∧
          q ∈ (run Relay.init tr).adapter.rooms r) ∧
      (∀ q, q ∈ (run Relay.init tr).adapter.rooms r → q ≠ p →
        (step (run Relay.init tr) (ClientEvent.joinRoom p r userName)).2.countP
          (fun x => decide (x = (q, ServerMsg.peerJoined p userName))) = 1)) := by
  obtain ⟨-, hacc⟩ := wellFormed_snoc hwf
  have hp : p ∈ (run Relay.init tr).sockets := by simpa [accepts] using hacc
  have hinv := inv_run inv_init tr
  have hinv' : Inv (step (run Relay.init tr) (ClientEvent.joinRoom p r userName)).1 :=
    inv_step hinv _
  have hout : (step (run Relay.init tr) (ClientEvent.joinRoom p r userName)).2
      = (p, ServerMsg.joinedRoom p
          ((((run Relay.init tr).adapter.addAll p r).rooms r).filter (fun q => q ≠ p)))
        :: socketTo (step (run Relay.init tr) (ClientEvent.joinRoom p r userName)).1.adapter
            p r (ServerMsg.peerJoined p userName) := by
    simp only [step, if_pos hp, onJoinRoom]
  have hgen : ∀ (l : List SocketId) (P : SocketId → Prop), l.Nodup →
      (∀ q, q ∈ l ↔ P q) →
      (step (run Relay.init tr) (ClientEvent.joinRoom p r userName)).2
        = (p, ServerMsg.joinedRoom p
            ((((run Relay.init tr).adapter.addAll p r).rooms r).filter (fun q => q ≠ p)))
          :: l.map (fun q => (q, ServerMsg.peerJoined p userName)) →
      (∀ q m, (q, m) ∈ (step (run Relay.init tr) (ClientEvent.joinRoom p r userName)).2 →
        (∃ i u, m = ServerMsg.peerJoined i u) → m = ServerMsg.peerJoined p userName ∧ P q) ∧
      (∀ q, P q →
        (step (run Relay.init tr) (ClientEvent.joinRoom p r userName)).2.countP
          (fun x => decide (x = (q, ServerMsg.peerJoined p userName))) = 1) := by
    intro l P hl hP hstep
    rw [hstep]
    constructor
    · intro q m hqm hm
      simp only [List.mem_cons, Prod.mk.injEq, List.mem_map] at hqm
      rcases hqm with ⟨-, rfl⟩ | ⟨q', hq', rfl, rfl⟩
      · obtain ⟨i, u, hm⟩ := hm
        cases hm
      · exact ⟨rfl, (hP q').1 hq'⟩
    · intro q hq
      rw [List.countP_cons_of_neg _ _ (by simp)]
      exact countP_pair_of_mem _ _ q hl ((hP q).2 hq)
  refine ⟨?_, ?_, ?_⟩
  · have := (hgen _ (fun q =>
        q ∈ (step (run Relay.init tr) (ClientEvent.joinRoom p r userName)).1.adapter.rooms r ∧
        q ∉ (step (run Relay.init tr) (ClientEvent.joinRoom p r userName)).1.adapter.rooms p)
      ((hinv'.roomsNodup r).filter _) (by intro q; simp [List.mem_filter]) hout).1
    intro q m hqm hm
    obtain ⟨h1, h2, h3⟩ := this q m hqm hm
    exact ⟨h1, h2, h3⟩
  · have := (hgen _ (fun q =>
        q ∈ (step (run Relay.init tr) (ClientEvent.joinRoom p r userName)).1.adapter.rooms r ∧
        q ∉ (step (run Relay.init tr) (ClientEvent.joinRoom p r userName)).1.adapter.rooms p)
      ((hinv'.roomsNodup r).filter _) (by intro q; simp [List.mem_filter]) hout).2
    exact fun q h1 h2 => this q ⟨h1, h2⟩
  · intro hroom
    have hown := own_room_intact hwf hp hroom
    have hown' : (step (run Relay.init tr)
        (ClientEvent.joinRoom p r userName)).1.adapter.rooms p = [p] := by
      simp only [step, if_pos hp, onJoinRoom, Adapter.addAll]
      split
      · rw [hown]; exact setAdd_of_mem (by simp)
      · exact hown
    have hout' : (step (run Relay.init tr) (ClientEvent.joinRoom p r userName)).2
        = (p, ServerMsg.joinedRoom p
            ((((run Relay.init tr).adapter.addAll p r).rooms r).filter (fun q => q ≠ p)))
          :: (((run Relay.init tr).adapter.rooms r).filter (fun q => q ≠ p)).map
              (fun q => (q, ServerMsg.peerJoined p userName)) := by
      rw [hout, socketTo_of_own_room hown']
      simp only [step, if_pos hp, onJoinRoom, Adapter.addAll, if_true]
      rw [filter_ne_setAdd]
    have := hgen _ (fun q => q ≠ p ∧ q ∈ (run Relay.init tr).adapter.rooms r)
      ((hinv.roomsNodup r).filter _)
      (by intro q; simp [List.mem_filter, and_comm]) hout'
    refine ⟨fun q m hqm hm => ?_, fun q h1 h2 => this.2 q ⟨h2, h1⟩⟩
    obtain ⟨h1, h2, h3⟩ := this.1 q m hqm hm
    exact ⟨h1, h2, h3⟩

/-- Witness for `C6_peer_joined_fanout`: B joins the room A is in. -/
theorem C6_peer_joined_fanout_witness :
    WellFormed ([ClientEvent.connection "A", ClientEvent.connection "B",
      ClientEvent.joinRoom "A" "R" "Alice"] ++ [ClientEvent.joinRoom "B" "R" "Bob"]) ∧
    (∀ e ∈ [ClientEvent.connection "A", ClientEvent.connection "B",
      ClientEvent.joinRoom "A" "R" "Alice"], ∀ q u,
        e ≠ ClientEvent.joinRoom q "B" u ∧ e ≠ ClientEvent.leaveRoom q "B") ∧
    (step (run Relay.init [ClientEvent.connection "A", ClientEvent.connection "B",
      ClientEvent.joinRoom "A" "R" "Alice"]) (ClientEvent.joinRoom "B" "R" "Bob")).2.countP
        (fun x => decide (x = ("A", ServerMsg.peerJoined "B" "Bob"))) = 1 :=
  ⟨by decide, by simp,
    ((C6_peer_joined_fanout [ClientEvent.connection "A", ClientEvent.connection "B",
      ClientEvent.joinRoom "A" "R" "Alice"] "B" "R" "Bob" (by decide)).2.2 (by simp)).2 "A"
        (by decide) (by decide)⟩

/-- C6 as stated fails: X has joined the room named "P" and the room "R";
when P joins "R", the member X of "R" is sent no `peer-joined`. -/
theorem C6_counterexample :
    WellFormed [ClientEvent.connection "P", ClientEvent.connection "X",
      ClientEvent.joinRoom "X" "P" "Xavier", ClientEvent.joinRoom "X" "R" "Xavier",
      ClientEvent.joinRoom "P" "R" "Pat"] ∧
    "X" ∈ (run Relay.init [ClientEvent.connection "P", ClientEvent.connection "X",
      ClientEvent.joinRoom "X" "P" "Xavier",
      ClientEvent.joinRoom "X" "R" "Xavier"]).adapter.rooms "R" ∧
    (step (run Relay.init [ClientEvent.connection "P", ClientEvent.connection "X",
      ClientEvent.joinRoom "X" "P" "Xavier", ClientEvent.joinRoom "X" "R" "Xavier"])
      (ClientEvent.joinRoom "P" "R" "Pat")).2 = [("P", ServerMsg.joinedRoom "P" ["X"])] := by
  decide

/-- C7 (amended): when `p` disconnects, the rooms notified are, without
repetition, exactly the rooms `p` is a member of other than the one named by
its own id; for each of them `peer-left {id: p}` goes once to every member
that is not in the room named by `p`'s id, and nothing else is emitted.  When
no client has ever asked to join or leave a room of that name, these are the
members other than `p`, and the output is the output of explicit
`leave-room`s by `p` for those rooms. -/
theorem C7_disconnect_fanout (tr : List ClientEvent) (p : SocketId)
    (hwf : WellFormed (tr ++ [ClientEvent.disconnect p])) :
    ∃ rs : List Room, rs.Nodup ∧
      (∀ r, r ∈ rs ↔ p ∈ (run Relay.init tr).adapter.rooms r ∧ r ≠ p) ∧
      (∀ r, (((run Relay.init tr).adapter.rooms r).filter
        (fun q => q ∉ (run Relay.init tr).adapter.rooms p)).Nodup) ∧
      (step (run Relay.init tr) (ClientEvent.disconnect p)).2
        = rs.flatMap (fun r =>
            (((run Relay.init tr).adapter.rooms r).filter
              (fun q => q ∉ (run Relay.init tr).adapter.rooms p)).map
              (fun q => (q, ServerMsg.peerLeft p))) ∧
      ((∀ e ∈ tr, ∀ q u, e ≠ ClientEvent.joinRoom q p u ∧ e ≠ ClientEvent.leaveRoom q p) →
        (step (run Relay.init tr) (ClientEvent.disconnect p)).2
          = rs.flatMap (fun r =>
              (((run Relay.init tr).adapter.rooms r).filter (fun q => q ≠ p)).map
                (fun q => (q, ServerMsg.peerLeft p))) ∧
        (step (run Relay.init tr) (ClientEvent.disconnect p)).2
          = outputs (run Relay.init tr) (rs.map (fun r => ClientEvent.leaveRoom p r))) := by
  obtain ⟨-, hacc⟩ := wellFormed_snoc hwf
  have hp : p ∈ (run Relay.init tr).sockets := by simpa [accepts] using hacc
  have hinv := inv_run inv_init tr
  have hout : (step (run Relay.init tr) (ClientEvent.disconnect p)).2
      = (((run Relay.init tr).adapter.sids p).filter (fun room => room ≠ p)).flatMap
          (fun r => socketTo (run Relay.init tr).adapter p r (ServerMsg.peerLeft p)) := by
    simp only [step, if_pos hp, onDisconnecting]
  refine ⟨((run Relay.init tr).adapter.sids p).filter (fun room => room ≠ p),
    (hinv.sidsNodup p).filter _, ?_, fun r => (hinv.roomsNodup r).filter _, ?_, ?_⟩
  · intro r
    simp [List.mem_filter, hinv.agree]
  · rw [hout]
    simp only [socketTo]
  · intro hroom
    have hown := own_room_intact hwf hp hroom
    have hne : (step (run Relay.init tr) (ClientEvent.disconnect p)).2
        = (((run Relay.init tr).adapter.sids p).filter (fun room => room ≠ p)).flatMap
            (fun r => (((run Relay.init tr).adapter.rooms r).filter (fun q => q ≠ p)).map
              (fun q => (q, ServerMsg.peerLeft p))) := by
      rw [hout]
      simp only [socketTo_of_own_room hown]
    refine ⟨hne, ?_⟩
    rw [outputs_leaveRooms (run Relay.init tr) (run Relay.init tr) p hp hown (fun _ => rfl)]
    · exact hne
    · intro r hr
      simpa using (List.mem_filter.1 hr).2

/-- Witness for `C7_disconnect_fanout`: B disconnects while sharing a room
with A. -/
theorem C7_disconnect_fanout_witness :
    WellFormed ([ClientEvent.connection "A", ClientEvent.connection "B",
      ClientEvent.joinRoom "A" "R" "Alice", ClientEvent.joinRoom "B" "R" "Bob"]
        ++ [ClientEvent.disconnect "B"]) ∧
    (∀ e ∈ [ClientEvent.connection "A", ClientEvent.connection "B",
      ClientEvent.joinRoom "A" "R" "Alice", ClientEvent.joinRoom "B" "R" "Bob"], ∀ q u,
        e ≠ ClientEvent.joinRoom q "B" u ∧ e ≠ ClientEvent.leaveRoom q "B") ∧
    ∃ rs : List Room, rs.Nodup ∧
      (∀ r, r ∈ rs ↔ "B" ∈ (run Relay.init [ClientEvent.connection "A",
        ClientEvent.connection "B", ClientEvent.joinRoom "A" "R" "Alice",
        ClientEvent.joinRoom "B" "R" "Bob"]).adapter.rooms r ∧ r ≠ "B") ∧
      (step (run Relay.init [ClientEvent.connection "A", ClientEvent.connection "B",
        ClientEvent.joinRoom "A" "R" "Alice", ClientEvent.joinRoom "B" "R" "Bob"])
        (ClientEvent.disconnect "B")).2
        = outputs (run Relay.init [ClientEvent.connection "A", ClientEvent.connection "B",
            ClientEvent.joinRoom "A" "R" "Alice", ClientEvent.joinRoom "B" "R" "Bob"])
            (rs.map (fun r => ClientEvent.leaveRoom "B" r)) := by
  refine ⟨by decide, by simp, ?_⟩
  obtain ⟨rs, h1, h2, -, -, h5⟩ := C7_disconnect_fanout [ClientEvent.connection "A",
    ClientEvent.connection "B", ClientEvent.joinRoom "A" "R" "Alice",
    ClientEvent.joinRoom "B" "R" "Bob"] "B" (by decide)
  exact ⟨rs, h1, h2, (h5 (by simp)).2⟩

/-- C7 as stated fails: X has joined the room named "P", and P and X are both
in room "R"; when P disconnects, the remaining member X of "R" is sent no
`peer-left`. -/
theorem C7_counterexample :
    WellFormed [ClientEvent.connection "P", ClientEvent.connection "X",
      ClientEvent.joinRoom "X" "P" "Xavier", ClientEvent.joinRoom "P" "R" "Pat",
      ClientEvent.joinRoom "X" "R" "Xavier", ClientEvent.disconnect "P"] ∧
    (run Relay.init [ClientEvent.connection "P", ClientEvent.connection "X",
      ClientEvent.joinRoom "X" "P" "Xavier", ClientEvent.joinRoom "P" "R" "Pat",
      ClientEvent.joinRoom "X" "R" "Xavier"]).adapter.rooms "R" = ["P", "X"] ∧
    (step (run Relay.init [ClientEvent.connection "P", ClientEvent.connection "X",
      ClientEvent.joinRoom "X" "P" "Xavier", ClientEvent.joinRoom "P" "R" "Pat",
      ClientEvent.joinRoom "X" "R" "Xavier"]) (ClientEvent.disconnect "P")).2 = [] := by
  decide

/-- C8 (amended): a `leave-room` by `p` for a room it is not a member of
leaves the registry unchanged, and two `leave-room`s in a row leave the
registry as one does; whether or not `p` was a member, each `leave-room`
emits `peer-left {id: p}` to the members of the room that are not in the room
named by `p`'s id, which are the members other than `p` when no client has
ever asked to join or leave a room of that name. -/
theorem C8_leave_registry_idempotent (tr : List ClientEvent) (p : SocketId) (r : Room)
    (hwf : WellFormed (tr ++ [ClientEvent.leaveRoom p r])) :
    (p ∉ (run Relay.init tr).adapter.rooms r →
      (step (run Relay.init tr) (ClientEvent.leaveRoom p r)).1 = run Relay.init tr) ∧
    run (run Relay.init tr) [ClientEvent.leaveRoom p r, ClientEvent.leaveRoom p r]
      = run (run Relay.init tr) [ClientEvent.leaveRoom p r] ∧
    (step (run Relay.init tr) (ClientEvent.leaveRoom p r)).2
      = (((step (run Relay.init tr) (ClientEvent.leaveRoom p r)).1.adapter.rooms r).filter
          (fun q => q ∉ (step (run Relay.init tr)
            (ClientEvent.leaveRoom p r)).1.adapter.rooms p)).map
          (fun q => (q, ServerMsg.peerLeft p)) ∧
    ((∀ e ∈ tr, ∀ q u, e ≠ ClientEvent.joinRoom q p u ∧ e ≠ ClientEvent.leaveRoom q p) →
      (step (run Relay.init tr) (ClientEvent.leaveRoom p r)).2
        = (((run Relay.init tr).adapter.rooms r).filter (fun q => q ≠ p)).map
            (fun q => (q, ServerMsg.peerLeft p))) := by
  obtain ⟨-, hacc⟩ := wellFormed_snoc hwf
  have hp : p ∈ (run Relay.init tr).sockets := by simpa [accepts] using hacc
  have hinv := inv_run inv_init tr
  refine ⟨?_, ?_, ?_, ?_⟩
  · intro hmem
    have hsid : r ∉ (run Relay.init tr).adapter.sids p := fun h => hmem ((hinv.agree r p).2 h)
    refine Relay.eq_of ?_ ?_ ?_
    · simp only [step, if_pos hp, onLeaveRoom]
    · intro r'
      simp only [step, if_pos hp, onLeaveRoom, Adapter.del]
      split
      · rename_i h; subst h; exact setDelete_of_not_mem hmem
      · rfl
    · intro q
      simp only [step, if_pos hp, onLeaveRoom, Adapter.del]
      split
      · rename_i h; subst h; exact setDelete_of_not_mem hsid
      · rfl
  · refine Relay.eq_of ?_ ?_ ?_
    · simp only [run, step, if_pos hp, onLeaveRoom]
    · intro r'
      simp only [run, step, if_pos hp, onLeaveRoom, Adapter.del]
      split
      · exact setDelete_setDelete _ _
      · rfl
    · intro q
      simp only [run, step, if_pos hp, onLeaveRoom, Adapter.del]
      split
      · exact setDelete_setDelete _ _
      · rfl
  · simp only [step, if_pos hp, onLeaveRoom, socketTo]
  · intro hroom
    have hown := own_room_intact hwf hp hroom
    simp only [step, if_pos hp, onLeaveRoom, socketTo, Adapter.del, if_true]
    by_cases hpr : p = r
    · subst hpr
      simp [hown, setDelete]
    · simp only [if_neg hpr, hown, filter_not_mem_singleton]
      rw [filter_ne_setDelete]

/-- Witness for `C8_leave_registry_idempotent`: B, connected but in no room,
sends `leave-room` for the room A is in. -/
theorem C8_leave_registry_idempotent_witness :
    WellFormed ([ClientEvent.connection "A", ClientEvent.connection "B",
      ClientEvent.joinRoom "A" "R" "Alice"] ++ [ClientEvent.leaveRoom "B" "R"]) ∧
    "B" ∉ (run Relay.init [ClientEvent.connection "A", ClientEvent.connection "B",
      ClientEvent.joinRoom "A" "R" "Alice"]).adapter.rooms "R" ∧
    (step (run Relay.init [ClientEvent.connection "A", ClientEvent.connection "B",
      ClientEvent.joinRoom "A" "R" "Alice"]) (ClientEvent.leaveRoom "B" "R")).1
      = run Relay.init [ClientEvent.connection "A", ClientEvent.connection "B",
          ClientEvent.joinRoom "A" "R" "Alice"] :=
  ⟨by decide, by decide,
    (C8_leave_registry_idempotent [ClientEvent.connection "A", ClientEvent.connection "B",
      ClientEvent.joinRoom "A" "R" "Alice"] "B" "R" (by decide)).1 (by decide)⟩

/-- C8 as stated fails: B is not a member of room "R", yet its `leave-room`
for "R" makes the relay send `peer-left {id: "B"}` to the member A. -/
theorem C8_counterexample :
    "B" ∉ (run Relay.init [ClientEvent.connection "A", ClientEvent.connection "B",
      ClientEvent.joinRoom "A" "R" "Alice"]).adapter.rooms "R" ∧
    (step (run Relay.init [ClientEvent.connection "A", ClientEvent.connection "B",
      ClientEvent.joinRoom "A" "R" "Alice"]) (ClientEvent.leaveRoom "B" "R")).2
      = [("A", ServerMsg.peerLeft "B")] := by
  decide

/-- C9: a `join-room` by `p` into a room it is already a member of leaves the
registry unchanged and replies with the members of the room other than `p`;
repeating it yields the same reply again. -/
theorem C9_rejoin_noop (tr : List ClientEvent) (p : SocketId) (r : Room) (userName : String)
    (hmem : p ∈ (run Relay.init tr).adapter.rooms r) :
    (step (run Relay.init tr) (ClientEvent.joinRoom p r userName)).1 = run Relay.init tr ∧
    replyPeers p (step (run Relay.init tr) (ClientEvent.joinRoom p r userName)).2
      = some (((run Relay.init tr).adapter.rooms r).filter (fun q => q ≠ p)) ∧
    ∀ userName', replyPeers p
        (step (step (run Relay.init tr) (ClientEvent.joinRoom p r userName)).1
          (ClientEvent.joinRoom p r userName')).2
      = replyPeers p (step (run Relay.init tr) (ClientEvent.joinRoom p r userName)).2 := by
  have hinv := inv_run inv_init tr
  have hp : p ∈ (run Relay.init tr).sockets := hinv.live r p hmem
  have hsid : r ∈ (run Relay.init tr).adapter.sids p := (hinv.agree r p).1 hmem
  have hstate : (step (run Relay.init tr) (ClientEvent.joinRoom p r userName)).1
      = run Relay.init tr := by
    refine Relay.eq_of ?_ ?_ ?_
    · simp only [step, if_pos hp, onJoinRoom]
    · intro r'
      simp only [step, if_pos hp, onJoinRoom, Adapter.addAll]
      split
      · rename_i h; subst h; exact setAdd_of_mem hmem
      · rfl
    · intro q
      simp only [step, if_pos hp, onJoinRoom, Adapter.addAll]
      split
      · rename_i h; subst h; exact setAdd_of_mem hsid
      · rfl
  have hreply : ∀ u, replyPeers p (step (run Relay.init tr) (ClientEvent.joinRoom p r u)).2
      = some (((run Relay.init tr).adapter.rooms r).filter (fun q => q ≠ p)) := by
    intro u
    simp only [step, if_pos hp, onJoinRoom, replyPeers, Adapter.addAll, if_true, and_self]
    rw [setAdd_of_mem hmem]
  refine ⟨hstate, hreply userName, ?_⟩
  intro userName'
  rw [hstate, hreply, hreply]

/-- Witness for `C9_rejoin_noop`: A joins room "R" a second time. -/
theorem C9_rejoin_noop_witness :
    "A" ∈ (run Relay.init [ClientEvent.connection "A", ClientEvent.connection "B",
      ClientEvent.joinRoom "A" "R" "Alice", ClientEvent.joinRoom "B" "R" "Bob"]).adapter.rooms
        "R" ∧
    replyPeers "A" (step (run Relay.init [ClientEvent.connection "A", ClientEvent.connection "B",
      ClientEvent.joinRoom "A" "R" "Alice", ClientEvent.joinRoom "B" "R" "Bob"])
      (ClientEvent.joinRoom "A" "R" "Alice")).2
      = some (((run Relay.init [ClientEvent.connection "A", ClientEvent.connection "B",
          ClientEvent.joinRoom "A" "R" "Alice",
          ClientEvent.joinRoom "B" "R" "Bob"]).adapter.rooms "R").filter (fun q => q ≠ "A")) :=
  ⟨by decide,
    (C9_rejoin_noop [ClientEvent.connection "A", ClientEvent.connection "B",
      ClientEvent.joinRoom "A" "R" "Alice", ClientEvent.joinRoom "B" "R" "Bob"]
      "A" "R" "Alice" (by decide)).2.1⟩

theorem objGet_objSet_self {α : Type} (m : List (String × α)) (k : String) (v : α) :
    objGet (objSet m k v) k = some v := by
  induction m with
  | nil => simp [objGet, objSet, List.lookup]
  | cons e m ih =>
    obtain ⟨k', w⟩ := e
    unfold objSet
    by_cases h : k = k'
    · subst h; simp [objGet, List.lookup]
    · have h' : (k == k') = false := by simpa using h
      simp only [if_neg h, objGet, List.lookup, h']
      exact ih

theorem objGet_objSet_ne {α : Type} (m : List (String × α)) {k k' : String} (v : α)
    (hne : k' ≠ k) : objGet (objSet m k v) k' = objGet m k' := by
  induction m with
  | nil =>
    have h' : (k' == k) = false := by simpa using hne
    simp [objGet, objSet, List.lookup, h']
  | cons e m ih =>
    obtain ⟨k₀, w⟩ := e
    unfold objSet
    by_cases h : k = k₀
    · subst h
      have h' : (k' == k) = false := by simpa using hne
      simp [objGet, List.lookup, h']
    · simp only [if_neg h, objGet, List.lookup]
      cases hk : (k' == k₀)
      · exact ih
      · rfl

theorem handleRemoteIce_of_awaiting {c : Client} {q : SocketId} (h : AwaitingRemote c q)
    (k : String) : handleRemoteIce c q k = c := by
  unfold handleRemoteIce
  cases hpc : objGet c.pcs q with
  | none => rfl
  | some pc => simp only [h pc hpc]

theorem run_iceFrom_of_awaiting {c : Client} {q : SocketId} (h : AwaitingRemote c q)
    (cs : List String) : c.run (iceFrom q cs) = c ∧ c.emitted (iceFrom q cs) = [] := by
  induction cs with
  | nil => exact ⟨rfl, rfl⟩
  | cons k cs ih =>
    simp only [iceFrom, List.map_cons, Client.run, Client.emitted, Client.handle,
      handleRemoteIce_of_awaiting h k, List.nil_append]
    exact ih

theorem run_iceFrom_of_remote (c : Client) (q : SocketId) (cs : List String)
    (pc : PeerConnection) (hpc : objGet c.pcs q = some pc) (hr : pc.remoteDescription ≠ none) :
    objGet (c.run (iceFrom q cs)).pcs q
      = some { pc with candidates := pc.candidates ++ cs } := by
  induction cs generalizing c pc with
  | nil => simpa [iceFrom, Client.run] using hpc
  | cons k cs ih =>
    obtain ⟨d, hd⟩ := Option.ne_none_iff_exists'.1 hr
    have hstep : handleRemoteIce c q k
        = { c with pcs := objSet c.pcs q { pc with candidates := pc.candidates ++ [k] } } := by
      unfold handleRemoteIce
      simp only [hpc, hd]
    simp only [iceFrom, List.map_cons, Client.run, Client.handle, hstep]
    have := ih { c with pcs := objSet c.pcs q { pc with candidates := pc.candidates ++ [k] } }
      { pc with candidates := pc.candidates ++ [k] } (objGet_objSet_self _ _ _) hr
    simpa [iceFrom, List.append_assoc] using this

/-- C3, evaluated on the code: A is in room "R" and B joins.  The relay
notifies both; B offers to A from its `joined-room` handler and A offers to B
from its `peer-joined` handler; once the relay has forwarded the two offers,
each client has constructed two peer connections for the other, the second
having replaced the first in `pcs`. -/
theorem C3_both_sides_offer :
    glareNotified
      = [("B", ServerMsg.joinedRoom "B" ["A"]), ("A", ServerMsg.peerJoined "B" "Bob")] ∧
    offersSent glareEmittedA = [("B", 0)] ∧
    offersSent glareEmittedB = [("A", 0)] ∧
    glareForwarded
      = [("A", ServerMsg.signal "B" (Payload.offer 0)),
         ("B", ServerMsg.signal "A" (Payload.offer 0))] ∧
    glareA.constructed = 2 ∧ glareB.constructed = 2 ∧
    (objGet glareA.pcs "B").map (fun pc => pc.serial) = some 1 ∧
    (objGet glareB.pcs "A").map (fun pc => pc.serial) = some 1 := by
  decide

/-- C4 (amended): `ice` messages from `q` that arrive while no remote
description is applied for `q` are discarded: the client is left unchanged,
emits nothing, and when `q`'s offer or answer is then set as remote
description none of them is applied (the connection made for an offer has no
candidates; on an answer the connection keeps the candidates it had).  `ice`
messages that arrive once a remote description is set are applied at once, in
arrival order. -/
theorem C4_ice_before_remote_description_dropped (c : Client) (q : SocketId)
    (cs : List String) :
    (AwaitingRemote c q →
      c.run (iceFrom q cs) = c ∧ c.emitted (iceFrom q cs) = [] ∧
      (∀ sdp, c.localStream ≠ none →
        ∃ pc, objGet ((c.run (iceFrom q cs)).handle
            (ServerMsg.signal q (Payload.offer sdp))).1.pcs q = some pc ∧
          pc.remoteDescription = some sdp ∧ pc.candidates = []) ∧
      (∀ sdp pc, objGet c.pcs q = some pc →
        objGet ((c.run (iceFrom q cs)).handle
            (ServerMsg.signal q (Payload.answer sdp))).1.pcs q
          = some { pc with remoteDescription := some sdp })) ∧
    (∀ pc, objGet c.pcs q = some pc → pc.remoteDescription ≠ none →
      objGet (c.run (iceFrom q cs)).pcs q
        = some { pc with candidates := pc.candidates ++ cs }) := by
  refine ⟨fun h => ?_, run_iceFrom_of_remote c q cs⟩
  obtain ⟨hrun, hemit⟩ := run_iceFrom_of_awaiting h cs
  refine ⟨hrun, hemit, ?_, ?_⟩
  · intro sdp hls
    obtain ⟨stream, hstream⟩ := Option.ne_none_iff_exists'.1 hls
    rw [hrun]
    simp only [Client.handle, handleOffer, createPeerConnection, hstream]
    exact ⟨_, objGet_objSet_self _ _ _, rfl, rfl⟩
  · intro sdp pc hpc
    rw [hrun]
    simp only [Client.handle, handleAnswer, hpc, h pc hpc]
    exact objGet_objSet_self _ _ _

/-- Witness for `C4_ice_before_remote_description_dropped`: a client that
has joined an empty room receives two candidates from A before A's offer. -/
theorem C4_ice_before_remote_description_dropped_witness :
    AwaitingRemote (Client.init.handle (ServerMsg.joinedRoom "B" [])).1 "A" ∧
    (Client.init.handle (ServerMsg.joinedRoom "B" [])).1.run (iceFrom "A" ["c1", "c2"])
      = (Client.init.handle (ServerMsg.joinedRoom "B" [])).1 :=
  ⟨by intro pc h; simp [Client.handle, callPeers, getLocalStream, Client.init, objGet] at h,
    ((C4_ice_before_remote_description_dropped
      (Client.init.handle (ServerMsg.joinedRoom "B" [])).1 "A" ["c1", "c2"]).1
        (by intro pc h; simp [Client.handle, callPeers, getLocalStream, Client.init, objGet] at h)).1⟩

/-- C4 as stated fails: candidate "c1" from A arrives before A's offer; after
the offer has been set as remote description the connection for A has no
candidate applied. -/
theorem C4_counterexample :
    (objGet ((Client.init.handle (ServerMsg.joinedRoom "B" [])).1.run
        [ServerMsg.signal "A" (Payload.ice "c1"),
         ServerMsg.signal "A" (Payload.offer 0)]).pcs "A").map
      (fun pc => (pc.remoteDescription, pc.candidates)) = some (some 0, []) := by
  decide

/-- C10 (amended): on `peer-joined {id: q}` the client, whether or not it
already holds a connection for `q`, constructs a new peer connection and a new
data channel, stores them under `q` in place of whatever was there, and sends
one offer to `q`; what it holds for other peers is unchanged.  The
`peer-joined` handler of `Room.jsx` likewise constructs a new initiator peer
and stores it under `q`. -/
theorem C10_peer_joined_replaces_link (c : Client) (q : SocketId) (userName : String) :
    (∃ pc, objGet (c.handle (ServerMsg.peerJoined q userName)).1.pcs q = some pc ∧
      pc.serial = c.constructed ∧ pc.localDescription = some c.constructed ∧
      pc.remoteDescription = none ∧ pc.candidates = []) ∧
    objGet (c.handle (ServerMsg.peerJoined q userName)).1.dataChannels q
      = some { pc := c.constructed } ∧
    (c.handle (ServerMsg.peerJoined q userName)).1.constructed = c.constructed + 1 ∧
    (c.handle (ServerMsg.peerJoined q userName)).2
      = [ClientMsg.signal q c.myId (Payload.offer c.constructed)] ∧
    (∀ q', q' ≠ q →
      objGet (c.handle (ServerMsg.peerJoined q userName)).1.pcs q' = objGet c.pcs q' ∧
      objGet (c.handle (ServerMsg.peerJoined q userName)).1.dataChannels q'
        = objGet c.dataChannels q') ∧
    (∀ rc : RoomClient,
      objGet (rc.onPeerJoined q).peers q = some { serial := rc.constructed, initiator := true } ∧
      (rc.onPeerJoined q).constructed = rc.constructed + 1) := by
  have key : ∀ c' : Client, c'.localStream ≠ none →
      (∃ pc, objGet (callPeer c' q).1.pcs q = some pc ∧
        pc.serial = c'.constructed ∧ pc.localDescription = some c'.constructed ∧
        pc.remoteDescription = none ∧ pc.candidates = []) ∧
      objGet (callPeer c' q).1.dataChannels q = some { pc := c'.constructed } ∧
      (callPeer c' q).1.constructed = c'.constructed + 1 ∧
      (callPeer c' q).2 = [ClientMsg.signal q c'.myId (Payload.offer c'.constructed)] ∧
      (∀ q', q' ≠ q →
        objGet (callPeer c' q).1.pcs q' = objGet c'.pcs q' ∧
        objGet (callPeer c' q).1.dataChannels q' = objGet c'.dataChannels q') := by
    intro c' hls
    obtain ⟨stream, hstream⟩ := Option.ne_none_iff_exists'.1 hls
    simp only [callPeer, createPeerConnection, hstream]
    refine ⟨⟨_, objGet_objSet_self _ _ _, rfl, rfl, rfl, rfl⟩, objGet_objSet_self _ _ _,
      trivial, trivial, ?_⟩
    intro q' hne
    exact ⟨by rw [objGet_objSet_ne _ _ hne, objGet_objSet_ne _ _ hne],
      objGet_objSet_ne _ _ hne⟩
  have hg : (getLocalStream c).localStream ≠ none := by
    unfold getLocalStream
    cases h : c.localStream <;> simp [h]
  have hsame : (getLocalStream c).constructed = c.constructed ∧
      (getLocalStream c).myId = c.myId ∧ (getLocalStream c).pcs = c.pcs ∧
      (getLocalStream c).dataChannels = c.dataChannels := by
    unfold getLocalStream
    cases h : c.localStream <;> simp
  obtain ⟨h1, h2, h3, h4⟩ := hsame
  have := key (getLocalStream c) hg
  rw [h1, h2, h3, h4] at this
  obtain ⟨k1, k2, k3, k4, k5⟩ := this
  refine ⟨k1, k2, k3, k4, k5, ?_⟩
  intro rc
  exact ⟨objGet_objSet_self _ _ _, rfl⟩

/-- Witness for `C10_peer_joined_replaces_link`: B holds connections for A
and for C when `peer-joined {id: "A"}` arrives; what it holds for C stays. -/
theorem C10_peer_joined_replaces_link_witness :
    "C" ≠ "A" ∧
    objGet ((Client.init.handle (ServerMsg.joinedRoom "B" ["A", "C"])).1.handle
        (ServerMsg.peerJoined "A" "Alice")).1.pcs "C"
      = objGet (Client.init.handle (ServerMsg.joinedRoom "B" ["A", "C"])).1.pcs "C" :=
  ⟨by decide,
    ((C10_peer_joined_replaces_link (Client.init.handle (ServerMsg.joinedRoom "B" ["A", "C"])).1
      "A" "Alice").2.2.2.2.1 "C" (by decide)).1⟩

/-- C10 as stated fails: B holds a connection for A (serial 0, offer sent);
a `peer-joined {id: "A"}` then makes B construct a second connection, which
replaces the first in `pcs`, and send a second offer to A. -/
theorem C10_counterexample :
    (objGet (Client.init.handle (ServerMsg.joinedRoom "B" ["A"])).1.pcs "A").map
      (fun pc => pc.serial) = some 0 ∧
    (objGet ((Client.init.handle (ServerMsg.joinedRoom "B" ["A"])).1.handle
      (ServerMsg.peerJoined "A" "Alice")).1.pcs "A").map (fun pc => pc.serial) = some 1 ∧
    ((Client.init.handle (ServerMsg.joinedRoom "B" ["A"])).1.handle
      (ServerMsg.peerJoined "A" "Alice")).1.constructed = 2 ∧
    ((Client.init.handle (ServerMsg.joinedRoom "B" ["A"])).1.handle
      (ServerMsg.peerJoined "A" "Alice")).2
      = [ClientMsg.signal "A" (some "B") (Payload.offer 1)] := by
  decide

theorem forall₂_map_of_forall {α : Type} (R : α → α → Prop) (f : α → α) (l : List α)
    (h : ∀ x, R x (f x)) : List.Forall₂ R l (l.map f) := by
  induction l with
  | nil => exact List.Forall₂.nil
  | cons a l ih => exact List.Forall₂.cons (h a) ih

/-- C11 (amended): with a current room, the leave action emits `leave-room`
for it, calls `close()` on every connection held in `pcs`, leaves `pcs`
empty and the room name unset, and leaves the local stream and its tracks as
they were. -/
theorem C11_leave_teardown (c : Client) (room : Room) (hroom : c.roomName = some room)
    (hne : room ≠ "") :
    (c.ui UiEvent.leave).2 = [ClientMsg.leaveRoom room] ∧
    (c.ui UiEvent.leave).1.pcs = [] ∧
    (∀ e ∈ c.pcs, e.2.serial ∈ (c.ui UiEvent.leave).1.closed) ∧
    (c.ui UiEvent.leave).1.roomName = none ∧
    (c.ui UiEvent.leave).1.localStream = c.localStream := by
  simp only [Client.ui, leaveBtnOnclick, hroom, if_neg hne]
  refine ⟨trivial, trivial, ?_, trivial, trivial⟩
  intro e he
  exact List.mem_append_right _ (List.mem_map.2 ⟨e, he, rfl⟩)

/-- Witness for `C11_leave_teardown`: B has joined room "R", holds a
connection for A, and leaves. -/
theorem C11_leave_teardown_witness :
    ((Client.init.ui (UiEvent.join "R" "Bob")).1.handle
      (ServerMsg.joinedRoom "B" ["A"])).1.roomName = some "R" ∧ "R" ≠ "" ∧
    ((((Client.init.ui (UiEvent.join "R" "Bob")).1.handle
      (ServerMsg.joinedRoom "B" ["A"])).1).ui UiEvent.leave).1.pcs = [] :=
  ⟨by decide, by decide,
    (C11_leave_teardown ((Client.init.ui (UiEvent.join "R" "Bob")).1.handle
      (ServerMsg.joinedRoom "B" ["A"])).1 "R" (by decide) (by decide)).2.1⟩

/-- C11 as stated fails: B has joined room "R" and holds a connection and a
data channel for A; after the leave action the data-channel map still holds
the entry for A (its channel closed with the connection), and the local
tracks have not been stopped. -/
theorem C11_counterexample :
    ((Client.init.ui (UiEvent.join "R" "Bob")).1.handle
      (ServerMsg.joinedRoom "B" ["A"])).1.roomName = some "R" ∧
    ((((Client.init.ui (UiEvent.join "R" "Bob")).1.handle
      (ServerMsg.joinedRoom "B" ["A"])).1).ui UiEvent.leave).1.dataChannels
      = [("A", { pc := 0, readyState := ChannelState.closed })] ∧
    ((((Client.init.ui (UiEvent.join "R" "Bob")).1.handle
      (ServerMsg.joinedRoom "B" ["A"])).1).ui UiEvent.leave).1.localStream
      = some [{ kind := TrackKind.audio, enabled := true, ended := false },
              { kind := TrackKind.video, enabled := true, ended := false }] := by
  decide

theorem head?_dropWhile_false {α : Type} (f : α → Bool) (l : List α) (x : α)
    (h : (l.dropWhile f).head? = some x) : f x = false := by
  have := List.head?_dropWhile_not f l
  rw [h] at this
  exact this

/-- What `jsTrim` returns is the input without a leading and a trailing run
of white space, and it neither starts nor ends with white space. -/
theorem jsTrim_spec (s : String) :
    ∃ pre post, s.toList = pre ++ (jsTrim s).toList ++ post ∧
      (∀ ch ∈ pre, isJsWhiteSpace ch = true) ∧ (∀ ch ∈ post, isJsWhiteSpace ch = true) ∧
      (∀ ch, (jsTrim s).toList.head? = some ch → isJsWhiteSpace ch = false) ∧
      (∀ ch, (jsTrim s).toList.getLast? = some ch → isJsWhiteSpace ch = false) := by
  have ht : (jsTrim s).toList
      = ((s.toList.dropWhile isJsWhiteSpace).reverse.dropWhile isJsWhiteSpace).reverse := rfl
  have hd : s.toList.dropWhile isJsWhiteSpace
      = ((s.toList.dropWhile isJsWhiteSpace).reverse.dropWhile isJsWhiteSpace).reverse
        ++ ((s.toList.dropWhile isJsWhiteSpace).reverse.takeWhile isJsWhiteSpace).reverse := by
    rw [← List.reverse_append, List.takeWhile_append_dropWhile, List.reverse_reverse]
  refine ⟨s.toList.takeWhile isJsWhiteSpace,
    ((s.toList.dropWhile isJsWhiteSpace).reverse.takeWhile isJsWhiteSpace).reverse, ?_, ?_, ?_,
    ?_, ?_⟩
  · rw [ht, List.append_assoc, ← hd, List.takeWhile_append_dropWhile]
  · exact fun ch hch => List.mem_takeWhile_imp hch
  · exact fun ch hch => List.mem_takeWhile_imp (List.mem_reverse.1 hch)
  · intro ch hch
    refine head?_dropWhile_false isJsWhiteSpace s.toList ch ?_
    rw [hd, List.head?_append, ← ht, hch]
    rfl
  · intro ch hch
    refine head?_dropWhile_false isJsWhiteSpace
      (s.toList.dropWhile isJsWhiteSpace).reverse ch ?_
    rw [ht, List.getLast?_reverse] at hch
    exact hch

/-- C12: the send action emits nothing to the relay; the text it works with
is the input stripped of leading and trailing white space; when that text is
empty nothing changes; otherwise it is handed once to `send` of each data
channel whose state is open, every other channel and all the rest of the
client are unchanged (nothing is queued).  The `sendChat` of `Room.jsx` does
the same over the peers whose `connected` flag is set. -/
theorem C12_send_chat (c : Client) (rc : RoomClient) (chatInput : String) :
    (c.ui (UiEvent.sendChat chatInput)).2 = [] ∧
    (∃ pre post, chatInput.toList = pre ++ (jsTrim chatInput).toList ++ post ∧
      (∀ ch ∈ pre, isJsWhiteSpace ch = true) ∧ (∀ ch ∈ post, isJsWhiteSpace ch = true) ∧
      (∀ ch, (jsTrim chatInput).toList.head? = some ch → isJsWhiteSpace ch = false) ∧
      (∀ ch, (jsTrim chatInput).toList.getLast? = some ch → isJsWhiteSpace ch = false)) ∧
    (jsTrim chatInput = "" →
      (c.ui (UiEvent.sendChat chatInput)).1 = c ∧ rc.sendChat chatInput = rc) ∧
    (jsTrim chatInput ≠ "" →
      List.Forall₂
        (fun e e' => e'.1 = e.1 ∧ e'.2.pc = e.2.pc ∧ e'.2.readyState = e.2.readyState ∧
          e'.2.sent = if e.2.readyState = ChannelState.open_
            then e.2.sent ++ [jsTrim chatInput] else e.2.sent)
        c.dataChannels (c.ui (UiEvent.sendChat chatInput)).1.dataChannels ∧
      (c.ui (UiEvent.sendChat chatInput)).1
        = { c with dataChannels := (c.ui (UiEvent.sendChat chatInput)).1.dataChannels } ∧
      List.Forall₂
        (fun e e' => e'.1 = e.1 ∧ e'.2.serial = e.2.serial ∧ e'.2.initiator = e.2.initiator ∧
          e'.2.connected = e.2.connected ∧
          e'.2.sent = if e.2.connected then e.2.sent ++ [jsTrim chatInput] else e.2.sent)
        rc.peers (rc.sendChat chatInput).peers ∧
      rc.sendChat chatInput = { rc with peers := (rc.sendChat chatInput).peers }) := by
  refine ⟨?_, jsTrim_spec chatInput, ?_, ?_⟩
  · simp only [Client.ui, sendChatOnclick]
    split <;> rfl
  · intro h
    simp only [Client.ui, sendChatOnclick, RoomClient.sendChat, h, if_true]
    exact ⟨trivial, trivial⟩
  · intro h
    simp only [Client.ui, sendChatOnclick, RoomClient.sendChat, if_neg h]
    refine ⟨forall₂_map_of_forall _ _ _ ?_, trivial, forall₂_map_of_forall _ _ _ ?_, trivial⟩
    · intro e
      unfold sendTo
      split
      · rename_i ho; simp [ho]
      · rename_i ho; simp [ho]
    · intro e
      unfold roomSendTo
      split
      · rename_i ho; simp [ho]
      · rename_i ho; simp [ho]

/-- Witness for `C12_send_chat`: the input " hi " with the channel to A open
and the one to C still connecting; "hi" is sent on A's channel only. -/
theorem C12_send_chat_witness :
    jsTrim " hi " ≠ "" ∧
    List.Forall₂
      (fun e e' => e'.1 = e.1 ∧ e'.2.pc = e.2.pc ∧ e'.2.readyState = e.2.readyState ∧
        e'.2.sent = if e.2.readyState = ChannelState.open_
          then e.2.sent ++ [jsTrim " hi "] else e.2.sent)
      chatClient.dataChannels (chatClient.ui (UiEvent.sendChat " hi ")).1.dataChannels ∧
    (chatClient.ui (UiEvent.sendChat " hi ")).1.dataChannels
      = [("A", { pc := 0, readyState := ChannelState.open_, sent := ["hi"] }),
         ("C", { pc := 1 })] ∧
    (chatRoomClient.sendChat " hi ").peers
      = [("A", { serial := 0, initiator := true, connected := true, sent := ["hi"] }),
         ("C", { serial := 1, initiator := true })] :=
  ⟨by decide,
    ((C12_send_chat chatClient chatRoomClient " hi ").2.2.2 (by decide)).1,
    by decide, by decide⟩

theorem forall₂_setEnabled (kind : TrackKind) (v : Bool) (stream : List Track) :
    List.Forall₂
      (fun t t' => t'.kind = t.kind ∧ t'.ended = t.ended ∧
        t'.enabled = if t.kind = kind then v else t.enabled)
      stream (setEnabled kind v stream) := by
  refine forall₂_map_of_forall _ _ _ ?_
  intro t
  split
  · rename_i hk; simp [hk]
  · rename_i hk; simp [hk]

theorem forall₂_flipEnabled (kind : TrackKind) (b : Bool) (stream : List Track)
    (hb : ∀ t ∈ stream, t.kind = kind → t.enabled = b) :
    List.Forall₂
      (fun t t' => t'.kind = t.kind ∧ t'.ended = t.ended ∧
        t'.enabled = if t.kind = kind then !b else t.enabled)
      stream (flipEnabled kind stream) := by
  unfold flipEnabled
  induction stream with
  | nil => exact List.Forall₂.nil
  | cons t stream ih =>
    refine List.Forall₂.cons ?_ (ih (fun t' ht' => hb t' (List.mem_cons_of_mem _ ht')))
    by_cases hk : t.kind = kind
    · simp [hk, hb t (by simp) hk]
    · simp [hk]

/-- C13: with a local stream, the mute action gives every audio track the
enabled flag `!audioEnabled`, leaves every video track, `pcs` and
`dataChannels` unchanged and emits nothing to the relay; the video action
does the same with the roles of audio and video exchanged.  In `Room.jsx`,
where the audio (video) tracks share the flag `b`, `toggleAudio`
(`toggleVideo`) gives each of them `!b` and changes neither the other tracks
nor `peersRef`. -/
theorem C13_toggle_local_only (c : Client) (rc : RoomClient) (stream : List Track) :
    (c.localStream = some stream →
      (∃ stream', (c.ui UiEvent.mute).1.localStream = some stream' ∧
        List.Forall₂
          (fun t t' => t'.kind = t.kind ∧ t'.ended = t.ended ∧
            t'.enabled = if t.kind = TrackKind.audio then !c.audioEnabled else t.enabled)
          stream stream') ∧
      (c.ui UiEvent.mute).1.pcs = c.pcs ∧
      (c.ui UiEvent.mute).1.dataChannels = c.dataChannels ∧
      (c.ui UiEvent.mute).2 = [] ∧
      (∃ stream', (c.ui UiEvent.video).1.localStream = some stream' ∧
        List.Forall₂
          (fun t t' => t'.kind = t.kind ∧ t'.ended = t.ended ∧
            t'.enabled = if t.kind = TrackKind.video then !c.videoEnabled else t.enabled)
          stream stream') ∧
      (c.ui UiEvent.video).1.pcs = c.pcs ∧
      (c.ui UiEvent.video).1.dataChannels = c.dataChannels ∧
      (c.ui UiEvent.video).2 = []) ∧
    (rc.localStream = some stream →
      (∀ b, (∀ t ∈ stream, t.kind = TrackKind.audio → t.enabled = b) →
        ∃ stream', rc.toggleAudio.localStream = some stream' ∧
          List.Forall₂
            (fun t t' => t'.kind = t.kind ∧ t'.ended = t.ended ∧
              t'.enabled = if t.kind = TrackKind.audio then !b else t.enabled)
            stream stream') ∧
      (∀ b, (∀ t ∈ stream, t.kind = TrackKind.video → t.enabled = b) →
        ∃ stream', rc.toggleVideo.localStream = some stream' ∧
          List.Forall₂
            (fun t t' => t'.kind = t.kind ∧ t'.ended = t.ended ∧
              t'.enabled = if t.kind = TrackKind.video then !b else t.enabled)
            stream stream') ∧
      rc.toggleAudio.peers = rc.peers ∧ rc.toggleVideo.peers = rc.peers) := by
  constructor
  · intro hs
    simp only [Client.ui, muteBtnOnclick, videoBtnOnclick, hs]
    exact ⟨⟨_, rfl, forall₂_setEnabled _ _ _⟩, trivial, trivial, trivial,
      ⟨_, rfl, forall₂_setEnabled _ _ _⟩, trivial, trivial, trivial⟩
  · intro hs
    simp only [RoomClient.toggleAudio, RoomClient.toggleVideo, hs]
    exact ⟨fun b hb => ⟨_, rfl, forall₂_flipEnabled _ b _ hb⟩,
      fun b hb => ⟨_, rfl, forall₂_flipEnabled _ b _ hb⟩, trivial, trivial⟩

/-- Witness for `C13_toggle_local_only`: B, in a room with a connection for
A, presses mute; its connection map is untouched. -/
theorem C13_toggle_local_only_witness :
    ((Client.init.ui (UiEvent.join "R" "Bob")).1.handle
      (ServerMsg.joinedRoom "B" ["A"])).1.localStream = some userMedia ∧
    ((((Client.init.ui (UiEvent.join "R" "Bob")).1.handle
      (ServerMsg.joinedRoom "B" ["A"])).1).ui UiEvent.mute).1.pcs
      = ((Client.init.ui (UiEvent.join "R" "Bob")).1.handle
          (ServerMsg.joinedRoom "B" ["A"])).1.pcs :=
  ⟨by decide,
    ((C13_toggle_local_only ((Client.init.ui (UiEvent.join "R" "Bob")).1.handle
      (ServerMsg.joinedRoom "B" ["A"])).1 {} userMedia).1 (by decide)).2.1⟩

end RtcDemo
